import Mathlib

/-!
# Verification of the iidy document-transformation pipeline

Shallow embedding of `src/index.ts` (the yaml pre-processor core of iidy):
the JavaScript value tree, the lodash object/merge primitives it relies on,
the import loader (`loadImports`), the tree-walking evaluator (`visitNode`
and its helpers), and the output assembler (`transformPostImports` /
`transform`).  Stateful JavaScript (the shared `GlobalAccumulator`, the
append-only import log, in-place `doc.$envValues` mutation) is modelled by
explicit state passing; thrown exceptions by `Except String`; the
unbounded recursion of the walker by an explicit fuel parameter (running
out of fuel is an error, modelling divergence of the source).
-/

set_option maxHeartbeats 1000000

namespace Iidy

/-- The kind discriminator of a non-plain YAML tag node, as produced by the
structured-document codec (`yaml.Tag` subclasses in the source).  Tags other
than the known macro tags are passthrough tags carrying their name. -/
inductive TagKind where
  | Ref
  | dollarInclude
  | dollarExpand
  | dollarEscape
  | dollarString
  | dollarParseYaml
  | dollarLet
  | dollarMap
  | dollarFlatten
  | dollarConcatMap
  | dollarMapListToHash
  | dollarFromPairs
  | passthrough (name : String)
  deriving DecidableEq, Repr

/-- A JavaScript value tree as manipulated by the transform: `null`,
`undefined`, booleans, numbers (modelled as integers; no claim exercises
float-specific behaviour), strings, `Date` objects (carrying their ISO
string), arrays, plain objects (insertion-ordered string-keyed maps), and
tagged YAML nodes. -/
inductive Val where
  | null
  | undefined
  | bool (b : Bool)
  | num (n : Int)
  | str (s : String)
  | date (iso : String)
  | arr (elems : List Val)
  | map (entries : List (String × Val))
  | tag (t : TagKind) (payload : Val)
  deriving Repr

/-- Entries of a JavaScript plain object: an insertion-ordered association
list with (by construction) unique keys. -/
abbrev Entries := List (String × Val)

/-- Property read on an object's entry list (`o[k]` when present). -/
def objGet (es : Entries) (k : String) : Option Val :=
  match es with
  | [] => none
  | (k', v) :: rest => if k' = k then some v else objGet rest k

/-- Does the object have the own property `k` (`k in o` / lodash `_.has`). -/
def objHasKey (es : Entries) (k : String) : Bool :=
  (objGet es k).isSome

/-- JavaScript property assignment `o[k] = v`: overwrite in place when the
key exists (keeping its position), otherwise append (insertion order). -/
def objSet (es : Entries) (k : String) (v : Val) : Entries :=
  match es with
  | [] => [(k, v)]
  | (k', v') :: rest => if k' = k then (k', v) :: rest else (k', v') :: objSet rest k v

/-- JavaScript `delete o[k]`. -/
def objDelete (es : Entries) (k : String) : Entries :=
  es.filter (fun kv => kv.1 ≠ k)

/-- The key list of an object (lodash `_.keys`, `Object.keys`). -/
def objKeys (es : Entries) : List String :=
  es.map Prod.fst

/-- Property read through a `Val`: `undefined` for anything without the
property (JavaScript property access on non-objects used by the source only
where the result is then tested with `_.isUndefinedValined` or for truthiness). -/
def valGet (v : Val) (k : String) : Option Val :=
  match v with
  | .map es => objGet es k
  | _ => none

/-- Property read defaulting to `undefined`, matching `o.k` in JavaScript. -/
def valGetD (v : Val) (k : String) : Val :=
  (valGet v k).getD .undefined

/-- JavaScript truthiness. -/
def valTruthy : Val → Bool
  | .null => false
  | .undefined => false
  | .bool b => b
  | .num n => n ≠ 0
  | .str s => s ≠ ""
  | .date _ => true
  | .arr _ => true
  | .map _ => true
  | .tag _ _ => true

/-- Is the value a plain object (`_.isPlainObject`, and the `_isPlainMap`
test of the source: an object that is not a tag, Date, RegExp or
function). -/
def isMapVal : Val → Bool
  | .map _ => true
  | _ => false

/-- `_.isObject`: objects, arrays and class instances (tags); not
primitives. -/
def isObjectVal : Val → Bool
  | .map _ => true
  | .arr _ => true
  | .tag _ _ => true
  | _ => false

/-- `_.isUndefinedValined`. -/
def isUndefinedVal : Val → Bool
  | .undefined => true
  | _ => false

mutual

/-- JavaScript `String(v)` / template-literal coercion.  Arrays join their
elements with `,` (`null`/`undefined` elements become empty); plain objects
and tag instances print as `[object Object]`.  `Date` is modelled as
printing its ISO string. -/
def jsToString : Val → String
  | .null => "null"
  | .undefined => "undefined"
  | .bool b => if b then "true" else "false"
  | .num n => toString n
  | .str s => s
  | .date iso => iso
  | .arr xs => jsToStringList xs
  | .map _ => "[object Object]"
  | .tag _ _ => "[object Object]"

/-- Array `toString`: comma-joined elements, `null`/`undefined` elements
rendered empty. -/
def jsToStringList : List Val → String
  | [] => ""
  | [.null] => ""
  | [.undefined] => ""
  | [x] => jsToString x
  | .null :: rest => "," ++ jsToStringList rest
  | .undefined :: rest => "," ++ jsToStringList rest
  | x :: rest => jsToString x ++ "," ++ jsToStringList rest

end

mutual

/-- Lodash `_.merge` of one source value over a destination value (the
recursive step).  Two plain objects merge key-wise; two arrays merge
index-wise (extra elements of either side are kept); an `undefined` source
leaves the destination; any other source replaces the destination (lodash
assigns — in the pure tree model a copy is the value itself).  Corner cases
in which lodash merges an object into an array or string-source index keys
are not reachable in this development and are modelled as replacement. -/
def mergeVal (dst src : Val) : Val :=
  match dst, src with
  | .map d, .map s => .map (mergeEntriesGo d s)
  | .arr d, .arr s => .arr (mergeArrGo d s)
  | d, .undefined => d
  | _, s => s

/-- Merge the source entries, in order, into the destination entries:
an existing key is merged in place, a new key is appended.  A source entry
whose value is `undefined` is skipped when the destination already has the
key (lodash skips `undefined` source properties with a destination value). -/
def mergeEntriesGo (d : Entries) : Entries → Entries
  | [] => d
  | (k, v) :: rest =>
      match objGet d k with
      | some dv =>
          if isUndefinedVal v then mergeEntriesGo d rest
          else mergeEntriesGo (objSet d k (mergeVal dv v)) rest
      | none => mergeEntriesGo (d ++ [(k, v)]) rest

/-- Index-wise array merge: source elements merge over the destination
prefix, extra elements of the longer side are kept. -/
def mergeArrGo : List Val → List Val → List Val
  | d, [] => d
  | [], s => s
  | di :: ds, si :: ss => mergeVal di si :: mergeArrGo ds ss

end

/-- The top-level variadic `_.merge(dst, src1, src2, …)`: each source in
turn is merged into the destination.  A primitive source contributes no own
enumerable properties and is a no-op at the top level (unlike in the
recursive step). -/
def lodashMerge2 (dst src : Val) : Val :=
  match src with
  | .map _ => mergeVal dst src
  | .arr _ => mergeVal dst src
  | _ => dst

/-- `_.merge` over a list of sources. -/
def lodashMerge (dst : Val) (srcs : List Val) : Val :=
  srcs.foldl lodashMerge2 dst

/-- Write a list of pairs into an object in order (the shared core of
`_.extend`, `_.fromPairs` and JavaScript object-literal construction). -/
def objSetFold (dst : Entries) : Entries → Entries
  | [] => dst
  | (k, v) :: rest => objSetFold (objSet dst k v) rest

/-- Lodash `_.extend` (assignIn): shallow copy of the source's own
properties onto the destination entry list, later writes overwriting.
Array sources contribute their index keys; primitive sources nothing. -/
def extendEntries (dst : Entries) (src : Val) : Entries :=
  match src with
  | .map es => objSetFold dst es
  | .arr xs => objSetFold dst (xs.enum.map (fun p => (toString p.1, p.2)))
  | _ => dst

/-- The collection view lodash `_.map` / `_.forEach` take of a value:
arrays are their elements, plain objects their values, strings their
characters; a tag instance owns the single enumerable property `data`
(its payload); anything else is empty. -/
def lodashList : Val → List Val
  | .arr xs => xs
  | .map es => es.map Prod.snd
  | .str s => s.toList.map (fun c => .str (String.mk [c]))
  | .tag _ payload => [payload]
  | _ => []

/-- The `(key, value)` pairs `_.toPairs` (and `for … in`) see: object
entries, array index/element pairs, string index/character pairs, the
`data` property of a tag instance. -/
def valEntries : Val → Entries
  | .map es => es
  | .arr xs => xs.enum.map (fun p => (toString p.1, p.2))
  | .str s => s.toList.enum.map (fun p => (toString p.1, Val.str (String.mk [p.2])))
  | .tag _ payload => [("data", payload)]
  | _ => []

/-- `_.fromPairs`: build an object from pairs, later pairs overwriting
earlier ones in place. -/
def fromPairs (ps : Entries) : Entries :=
  objSetFold [] ps

/-- JavaScript `===` between a collection member and a string (SameValueZero
as lodash `_.includes` uses it): only a string with the same characters
compares equal; objects compare by reference, never equal to a string. -/
def jsEqStr (v : Val) (s : String) : Bool :=
  match v with
  | .str t => t = s
  | _ => false

/-- Lodash `_.includes(object, str)`: membership of `str` among the
object's VALUES (value-membership, not key-membership). -/
def includesValue (es : Entries) (s : String) : Bool :=
  es.any (fun kv => jsEqStr kv.2 s)

/-- One level of `_flatten` from the source
(`[].concat.apply([], arrs)`): array elements are spliced, other elements
kept. -/
def flattenList (xs : List Val) : List Val :=
  match xs with
  | [] => []
  | .arr ys :: rest => ys ++ flattenList rest
  | x :: rest => x :: flattenList rest

/-- `_flatten` on a value: `[].concat.apply([], x)` — arrays flatten one
level, strings spread their characters (array-like apply), everything else
yields an empty array. -/
def flattenVal : Val → Val
  | .arr xs => .arr (flattenList xs)
  | .str s => .arr (s.toList.map (fun c => .str (String.mk [c])))
  | _ => .arr []

/-- `_liftKVPairs`: `{key, value}` pairs lifted into an object
(`_.fromPairs(_.map(objects, ({key, value}) => [key, value]))`). -/
def liftKVPairs (v : Val) : Val :=
  .map (fromPairs ((lodashList v).map
    (fun o => (jsToString (valGetD o "key"), valGetD o "value"))))

/-- Split a character list at a separator character (JavaScript
`String.prototype.split` with a one-character separator: an empty input
yields one empty field, `n` separators yield `n+1` fields). -/
def splitCharList (sep : Char) : List Char → List (List Char)
  | [] => [[]]
  | c :: rest =>
      let r := splitCharList sep rest
      if c = sep then [] :: r
      else
        match r with
        | [] => [[c]]
        | h :: t => (c :: h) :: t

/-- JavaScript `s.split(sep)` for a one-character separator. -/
def jsSplit (s : String) (sep : Char) : List String :=
  (splitCharList sep s.toList).map (fun cs => String.mk cs)

/-- JavaScript `s.startsWith(pat)` (`indexOf(pat) === 0`). -/
def jsStartsWith (s pat : String) : Bool :=
  pat.toList.isPrefixOf s.toList

/-- JavaScript `s.toLowerCase()` (ASCII, which is all the source compares
schemes over). -/
def jsToLowerStr (s : String) : String :=
  String.mk (s.toList.map Char.toLower)

/-- Is the character JavaScript whitespace (the subset appearing in this
development)? -/
def isJsSpace (c : Char) : Bool :=
  c = ' ' ∨ c = '\t' ∨ c = '\n' ∨ c = '\r'

/-- Trim leading and trailing whitespace. -/
def jsTrim (s : String) : String :=
  String.mk (((s.toList.dropWhile isJsSpace).reverse.dropWhile isJsSpace).reverse)

/-- Parse a list of decimal digits. -/
def charsToNatGo (acc : Nat) : List Char → Option Nat
  | [] => some acc
  | c :: rest =>
      if c.isDigit then charsToNatGo (acc * 10 + (c.toNat - '0'.toNat)) rest
      else none

/-- Parse a non-empty decimal string (the array-index coercion of
`_.get`). -/
def strToNatOpt (s : String) : Option Nat :=
  match s.toList with
  | [] => none
  | cs => charsToNatGo 0 cs

/-- Parse an optionally signed decimal string. -/
def strToIntOpt (s : String) : Option Int :=
  match s.toList with
  | '-' :: cs =>
      match (match cs with | [] => none | cs => charsToNatGo 0 cs) with
      | some n => some (-(n : Int))
      | none => none
  | _ => (strToNatOpt s).map (fun n => (n : Int))

/-- Does the string contain `pat` as a substring (JavaScript
`indexOf(pat) > -1`)? -/
def strContainsCore (s pat : List Char) : Bool :=
  match s with
  | [] => pat.isEmpty
  | _ :: rest => pat.isPrefixOf s || strContainsCore rest pat

/-- Substring test on strings. -/
def strContains (s pat : String) : Bool :=
  strContainsCore s.toList pat.toList

/-- Scan for a closing `}}` before a newline, as the `.` of the template
regex `/{{(.*?)}}/` does not match newlines. -/
def hbScanClose : List Char → Bool
  | '}' :: '}' :: _ => true
  | '\n' :: _ => false
  | _ :: rest => hbScanClose rest
  | [] => false

/-- Does the regex `/{{(.*?)}}/` match (the `node.search(…) > -1` test of
the source): some `{{` followed by `}}` with no newline between. -/
def hasHBCore : List Char → Bool
  | [] => false
  | c :: rest =>
      (c = '{' && (match rest with
        | c2 :: rest2 => c2 = '{' && hbScanClose rest2
        | [] => false))
      || hasHBCore rest

/-- String version of the template-marker test. -/
def hasHB (s : String) : Bool :=
  hasHBCore s.toList

/-- SameValueZero comparison between two values, as lodash `_.includes`
uses on array members: primitives compare structurally, objects by
reference (never equal across distinct structures in this model). -/
def jsSameValueZero (a b : Val) : Bool :=
  match a, b with
  | .null, .null => true
  | .undefined, .undefined => true
  | .bool x, .bool y => x = y
  | .num x, .num y => x = y
  | .str x, .str y => x = y
  | _, _ => false

/-- Lodash `_.includes(collection, value)` over the collection view. -/
def lodashIncludesVal (coll : Val) (v : Val) : Bool :=
  (lodashList coll).any (fun x => jsSameValueZero x v)

/-- Lodash `_.every(collection, pred)`; vacuously true on
non-collections. -/
def lodashEvery (coll : Val) (p : Val → Bool) : Bool :=
  (lodashList coll).all p

/-- Lodash `_.isEmpty`. -/
def isEmptyVal : Val → Bool
  | .map es => es.isEmpty
  | .arr xs => xs.isEmpty
  | .str s => s = ""
  | .tag _ _ => false
  | _ => true

/-- Is the value an array (`_.isArray`). -/
def isArrVal : Val → Bool
  | .arr _ => true
  | _ => false

/-- Code-unit lexicographic order on character lists (the order JavaScript
string comparison and lodash `_.sortBy` use). -/
def charListLe : List Char → List Char → Bool
  | [], _ => true
  | _ :: _, [] => false
  | a :: as, b :: bs =>
      if a.toNat < b.toNat then true
      else if b.toNat < a.toNat then false
      else charListLe as bs

/-- Code-unit order on strings. -/
def jsStrLe (a b : String) : Bool :=
  charListLe a.toList b.toList

/-- Insert a string into an ascending list (helper of `sortStrings`). -/
def insertSorted (x : String) : List String → List String
  | [] => [x]
  | y :: ys => if jsStrLe x y then x :: y :: ys else y :: insertSorted x ys

/-- JavaScript-style ascending sort of a string list
(`_.sortBy(_.keys(…))`), insertion sort by code-unit order. -/
def sortStrings (xs : List String) : List String :=
  xs.foldr insertSorted []

/-! ## External collaborators

The handbars engine, the structured-document codec (`./yaml`), `crypto`,
`os`, `tv4` and the regular-expression engine are outside `src/`.  They are
modelled here from their documented contracts in the specification; no
claim of this development depends on behaviour of theirs beyond what is
modelled. -/

/-- Walk a dotted handlebars path through mappings and array indices. -/
def hbWalk (v : Val) : List String → Option Val
  | [] => some v
  | k :: rest =>
      match v with
      | .map es => (objGet es k).bind (fun w => hbWalk w rest)
      | .arr xs => (strToNatOpt k).bind (fun i => (xs.get? i).bind (fun w => hbWalk w rest))
      | _ => none

/-- Modelled from the spec: resolve one `{{ … }}` expression against the
environment — a plain (possibly dotted) variable reference in strict mode,
rendered with JavaScript string coercion.  Helper calls and block
constructs are not modelled and resolve to an error (no claim uses them). -/
def hbResolve (env : Val) (expr : String) : Except String String :=
  let e := jsTrim expr
  if e = "" then .error "empty template expression"
  else if strContains e " " then .error s!"unsupported template expression {e}"
  else
    match jsSplit e '.' with
    | [] => .error "empty template expression"
    | k :: rest =>
        match (valGet env k).bind (fun w => hbWalk w rest) with
        | some v => if isUndefinedVal v then .error s!"{e} not defined" else .ok (jsToString v)
        | none => .error s!"{e} not defined"

/-- Render a handlebars template over a character stream: text is copied,
`{{ … }}` spans are resolved with `hbResolve`.  The boolean argument is
true inside an unclosed `{{ … }}` span, whose characters accumulate in the
second argument. -/
def hbRenderGo (env : Val) : List Char → List Char → Bool → Except String String
  | [], _, true => .error "unclosed template expression"
  | [], _, false => .ok ""
  | '{' :: '{' :: rest, _, false => hbRenderGo env rest [] true
  | '}' :: '}' :: rest, inner, true => do
      let v ← hbResolve env (String.mk inner)
      let tail ← hbRenderGo env rest [] false
      .ok (v ++ tail)
  | c :: rest, inner, true => hbRenderGo env rest (inner ++ [c]) true
  | c :: rest, _, false => do
      let tail ← hbRenderGo env rest [] false
      .ok (String.mk [c] ++ tail)

/-- The source's `interpolateHandlebarsString`: compile and render the
template against the environment (strict mode, `noEscape`), wrapping any
engine failure in an error naming the context.  The engine itself is
modelled from the spec as plain `{{var}}` substitution. -/
def interpolateHandlebarsString (templateString : String) (env : Val)
    (errorContext : String) : Except String String :=
  match hbRenderGo env templateString.toList [] false with
  | .ok s => .ok s
  | .error m => .error s!"Error in string template at {errorContext}: {m}"

/-- Tag-name part of the serialisation (kept separate from the payload so
the mutual recursion stays structural). -/
def yamlDumpTagName : TagKind → String
  | .passthrough name => name
  | _ => ""

mutual

/-- Modelled from the spec: the structured-document codec's `dump`
(`yaml.dump` of `./yaml`, absent from `src/`) — a deterministic flow-style
serialisation.  No claim depends on the concrete text beyond determinism. -/
def yamlDumpCore : Val → String
  | .null => "null"
  | .undefined => "undefined"
  | .bool b => if b then "true" else "false"
  | .num n => toString n
  | .str s => s
  | .date iso => iso
  | .arr xs => "[" ++ yamlDumpList xs ++ "]"
  | .map es => "\x7b" ++ yamlDumpEntries es ++ "\x7d"
  | .tag t p => "!tag " ++ yamlDumpCore p ++ yamlDumpTagName t

/-- Serialise array elements. -/
def yamlDumpList : List Val → String
  | [] => ""
  | [x] => yamlDumpCore x
  | x :: rest => yamlDumpCore x ++ ", " ++ yamlDumpList rest

/-- Serialise object entries. -/
def yamlDumpEntries : Entries → String
  | [] => ""
  | [(k, v)] => k ++ ": " ++ yamlDumpCore v
  | (k, v) :: rest => k ++ ": " ++ yamlDumpCore v ++ ", " ++ yamlDumpEntries rest

end

/-- Modelled from the spec: `yaml.dump` emits a trailing newline. -/
def yamlDump (v : Val) : String :=
  yamlDumpCore v ++ "\n"

/-- Modelled from the spec: the codec's `loadString` (parse structured
text).  Only scalar parses are exercised by this development: the YAML
scalars `null`, booleans and integers, everything else a plain string. -/
def yamlLoadString (s : String) (_loc : String) : Except String Val :=
  let t := jsTrim s
  if t = "null" ∨ t = "" then .ok .null
  else if t = "true" then .ok (.bool true)
  else if t = "false" then .ok (.bool false)
  else
    match strToIntOpt t with
    | some n => .ok (.num n)
    | none => .ok (.str s)

/-- Modelled from the spec: the `update` method of `yaml.Tag` — rebuild the
tag around a new payload (§4.4: recurse into the payload and rebuild). -/
def tagUpdate (t : TagKind) (payload : Val) : Val :=
  .tag t payload

/-- The source's `sha256Digest` wraps the external `crypto` module.  It is
modelled as an injective placeholder encoding; no claim depends on the
digest's value, only on the log entries carrying the digest of the loaded
data. -/
def sha256Digest (content : String) : String :=
  "sha256:" ++ content

/-- `os.hostname()`, fixed abstract value (external environment read). -/
def osHostname : String := "host.example"

/-- `os.userInfo().username`, fixed abstract value. -/
def osUserName : String := "builder"

/-- Modelled from the spec: `tv4.validateResult` JSON-Schema validation —
only the `type` keyword is modelled (no claim exercises schemas). -/
def tv4ValidateResult (value schema : Val) : Bool :=
  match valGet schema "type" with
  | some (.str "string") => (match value with | .str _ => true | _ => false)
  | some (.str "number") => (match value with | .num _ => true | _ => false)
  | some (.str "boolean") => (match value with | .bool _ => true | _ => false)
  | some (.str "object") => isMapVal value
  | some (.str "array") => isArrVal value
  | some (.str "null") => (match value with | .null => true | _ => false)
  | _ => true

/-- Modelled from the spec: `new RegExp(p).test`-style search, modelled as
a literal substring search (no claim exercises `AllowedPattern`). -/
def regexTestModel (pattern s : String) : Bool :=
  strContains s pattern

/-! ## The environment and the location resolver -/

/-- One frame of the evaluation stack (`StackFrame` of the source): the
source location (a string in practice, `undefined`-able through
`MaybeStackFrame`) and the dotted path. -/
structure StackFrame where
  location : Val
  path : String
  deriving Repr

/-- The evaluation environment (`Env` of the source) minus its
`GlobalAccumulator` field: the accumulator is shared by reference across
all sub-environments in the source and is therefore modelled as explicitly
threaded state next to the environment. -/
structure Env where
  envValues : Val
  stack : List StackFrame
  deriving Repr

/-- The shared `GlobalAccumulator` (a `CfnDoc`), threaded as state. -/
abbrev GAcc := Entries

/-- The result of one evaluator step: an error, or the produced value
together with the accumulator state. -/
abbrev VRes := Except String (Val × GAcc)

/-- `mkSubEnv` of the source: same accumulator (threaded separately), new
`$envValues`, and a stack extended by a frame whose location defaults to
the enclosing frame's location when the given one is falsy
(`frame.location || env.Stack[env.Stack.length-1].location`). -/
def mkSubEnv (env : Env) (envValues : Val) (location : Val) (path : String) : Env :=
  let loc := if valTruthy location then location
             else ((env.stack.getLast?).map StackFrame.location).getD .undefined
  { envValues := envValues, stack := env.stack ++ [⟨loc, path⟩] }

/-- `lookupInEnv` of the source: a non-string key is an error; an unbound
(or explicitly `undefined`) name is an error. -/
def lookupInEnv (key : Val) (path : String) (env : Env) : Except String Val :=
  match key with
  | .str k =>
      match valGet env.envValues k with
      | some v => if isUndefinedVal v then .error s!"Could not find {k} at {path}" else .ok v
      | none => .error s!"Could not find {k} at {path}"
  | _ => .error s!"Invalid lookup key at {path}"

/-- `appendPath` of the source. -/
def appendPath (rootPath suffix : String) : String :=
  if rootPath ≠ "" then rootPath ++ "." ++ suffix else suffix

/-- `path.split('.').pop()` — the last segment of the dotted path. -/
def currNodeOf (path : String) : String :=
  (jsSplit path '.').getLastD ""

/-- Does the path select the Resources special handling
(`currNode === 'Resources' && path.indexOf('Overrides') === -1`)? -/
def isResourcesCtx (path : String) : Bool :=
  currNodeOf path = "Resources" && !(strContains path "Overrides")

/-- `_.has(v, k)` — the value is an object owning the key. -/
def valHasKey (v : Val) (k : String) : Bool :=
  (valGet v k).isSome

/-- Property write through a `Val`.  Property attachment to non-mapping
objects (arrays, class instances) is not representable in the tree model
and is dropped; every later read of such a property in the source is on
mappings only. -/
def valSetKey (v : Val) (k : String) (x : Val) : Val :=
  match v with
  | .map es => .map (objSet es k x)
  | _ => v

/-- `delete o.k` through a `Val` (no-op on non-objects). -/
def valDeleteKey (v : Val) (k : String) : Val :=
  match v with
  | .map es => .map (objDelete es k)
  | _ => v

/-- Lodash `_.get(v, selectorList)`: walk mapping keys and array indices;
`none` is JavaScript `undefined`. -/
def lodashGetPath (v : Val) : List String → Option Val
  | [] => some v
  | k :: rest =>
      match v with
      | .map es => (objGet es k).bind (fun w => lodashGetPath w rest)
      | .arr xs => (strToNatOpt k).bind (fun i => (xs.get? i).bind (fun w => lodashGetPath w rest))
      | _ => none

/-- The supported import schemes (`importTypes` of the source). -/
def importTypes : List String :=
  ["ssm", "ssm-path", "file", "s3", "http", "env", "git", "random", "filehash", "literal"]

/-- The schemes disallowed from a remote base
(`localOnlyImportTypes`). -/
def localOnlyImportTypes : List String := ["file", "env"]

/-- The scheme a location expression carries: the lower-cased text before
the first `:` when one is present (`location.toLowerCase().split(':')[0]`),
`file` when none is. -/
def locSchemeOf (location : String) : String :=
  if strContains location ":" then (jsSplit (jsToLowerStr location) ':').headD "" else "file"

/-- `parseImportType` of the source: classify a location against its base.
A location with no `:` has no explicit scheme and defaults to `file`; when
the base's scheme is `s3` or `http`, a scheme-less location inherits the
base's scheme and an explicit `file`/`env` scheme is rejected; outside a
remote base, an unknown scheme is rejected. -/
def parseImportType (location baseLocation : String) : Except String String :=
  let hasExplicitType := strContains location ":"
  let importType := locSchemeOf location
  let baseImportType := locSchemeOf baseLocation
  if baseImportType ∈ ["s3", "http"] then
    if !hasExplicitType then .ok baseImportType
    else if importType ∈ localOnlyImportTypes then
      .error s!"Import type {location} in {baseLocation} not allowed from remote template"
    else .ok importType
  else if importType ∈ importTypes then .ok importType
  else .error s!"Unknown import type {location} in {baseLocation}"

/-! ## The evaluator (tree walker)

Each `…F` function is one function of the source, taking the recursive
`visitNode` call as the parameter `visit`; `visitNode` itself ties the knot
with a fuel parameter, consuming one unit per visit so that the
divergence possible in the source surfaces as a fuel error. -/

/-- The recursive-call type passed to the per-node-kind visitors. -/
abbrev Visitor := Val → String → Env → GAcc → VRes

/-- `visitStringNode`: interpolate iff the template regex matches. -/
def visitStringNode (s : String) (path : String) (env : Env) : Except String Val :=
  if hasHB s then (interpolateHandlebarsString s env.envValues path).map .str
  else .ok (.str s)

/-- The `$merge` splice loop of `visitMapNode`: every entry of the visited
sub-object is written into the result, a pre-existing key being an
error. -/
def spliceMergeGo (path : String) : Entries → Entries → Except String Entries
  | res, [] => .ok res
  | res, (k2, v2) :: rest =>
      if objHasKey res k2 then
        .error s!"Key {k2} is already present and cannot be merged into path {path}"
      else spliceMergeGo path (objSet res k2 v2) rest

/-- The entry loop of `visitMapNode`: keys starting with `$merge` splice
their visited value; the meta-keys `$envValues`, `$imports`, `$params` and
`$location` are dropped; every other entry is visited and written. -/
def visitMapEntriesGo (visit : Visitor) :
    Entries → Entries → String → Env → GAcc → Except String (Entries × GAcc)
  | [], res, _, _, g => .ok (res, g)
  | (k, v) :: rest, res, path, env, g =>
      if jsStartsWith k "$merge" then do
        let (sub, g1) ← visit v (appendPath path k) env g
        let res' ← spliceMergeGo path res (valEntries sub)
        visitMapEntriesGo visit rest res' path env g1
      else if k = "$envValues" ∨ k = "$imports" ∨ k = "$params" ∨ k = "$location" then
        visitMapEntriesGo visit rest res path env g
      else do
        let (v', g1) ← visit v (appendPath path k) env g
        visitMapEntriesGo visit rest (objSet res k v') path env g1

/-- `visitMapNode` of the source. -/
def visitMapNodeF (visit : Visitor) (node : Val) (path : String) (env : Env) (g : GAcc) : VRes := do
  let (res, g') ← visitMapEntriesGo visit (valEntries node) [] path env g
  .ok (.map res, g')

/-- `visitArray`: element-wise visit with the index appended to the
path. -/
def visitArrayGo (visit : Visitor) :
    List Val → Nat → String → Env → GAcc → Except String (List Val × GAcc)
  | [], _, _, _, g => .ok ([], g)
  | x :: rest, i, path, env, g => do
      let (v, g1) ← visit x (appendPath path (toString i)) env g
      let (vs, g2) ← visitArrayGo visit rest (i + 1) path env g1
      .ok (v :: vs, g2)

/-- The sub-environment values a `$expand` builds:
`_.merge({}, params, env.$envValues)` — the OUTER environment is the last
merge source and overrides the supplied parameters on common names. -/
def expandSubEnvValues (params outer : Val) : Val :=
  lodashMerge (.map []) [params, outer]

/-- `visit$Expand` of the source: exactly the keys `params`/`template` are
required; the named template is looked up, shallow-cloned, its `$params`
deleted, and the clone visited in the merged sub-environment. -/
def visitDollarExpandF (visit : Visitor) (d : Val) (path : String) (env : Env) (g : GAcc) : VRes :=
  if sortStrings (objKeys (valEntries d)) ≠ ["params", "template"] then
    .error s!"Invalid arguments to expand at {path}"
  else do
    let template ← lookupInEnv (valGetD d "template") path env
    let subEnv := mkSubEnv env (expandSubEnvValues (valGetD d "params") env.envValues) .undefined path
    visit (valDeleteKey template "$params") path subEnv g

/-- The iteration view lodash `_.map(collection, (value, idx) => …)`
takes: array-likes (arrays, strings) pair elements with NUMERIC indices,
objects pair values with their string keys, a tag instance its `data`
payload with the key `data`. -/
def lodashMapPairs : Val → List (Val × Val)
  | .arr xs => xs.enum.map (fun p => (.num p.1, p.2))
  | .str s => s.toList.enum.map (fun p => (.num p.1, Val.str (String.mk [p.2])))
  | .map es => es.map (fun kv => (Val.str kv.1, kv.2))
  | .tag _ payload => [(.str "data", payload)]
  | _ => []

/-- The sub-environment values one `$map` iteration builds:
`_.merge({[varName]: item, [varName+'Idx']: idx}, env.$envValues)` — the
OUTER environment is the merge source and overrides the item binding on
collision. -/
def mapSubEnvValues (varName : String) (item : Val) (idx : Val) (outer : Val) : Val :=
  lodashMerge2 (.map [(varName, item), (varName ++ "Idx", idx)]) outer

/-- The item loop of the `$map` handler: each item is visited first, then
the template is visited in the per-item sub-environment. -/
def visitMapItemsGo (visit : Visitor) (template : Val) (varName : String) :
    List (Val × Val) → String → Env → GAcc → Except String (List Val × GAcc)
  | [], _, _, g => .ok ([], g)
  | (idx, item0) :: rest, path, env, g => do
      let subPath := appendPath path (jsToString idx)
      let (item, g1) ← visit item0 subPath env g
      let subEnv := mkSubEnv env (mapSubEnvValues varName item idx env.envValues) .undefined subPath
      let (r, g2) ← visit template subPath subEnv g1
      let (rs, g3) ← visitMapItemsGo visit template varName rest path env g2
      .ok (r :: rs, g3)

/-- The `$map` handler: `var` defaults to `item`; the mapped list is
visited once more at the end, as in the source. -/
def visitDollarMapF (visit : Visitor) (d : Val) (path : String) (env : Env) (g : GAcc) : VRes := do
  let varName := if valTruthy (valGetD d "var") then jsToString (valGetD d "var") else "item"
  let (mapped, g1) ← visitMapItemsGo visit (valGetD d "template") varName
      (lodashMapPairs (valGetD d "items")) path env g
  visit (.arr mapped) path env g1

/-- The active prefix for `Ref` rewriting:
`env.$envValues.Prefix || ''` coerced to a string. -/
def activePrefixString (env : Env) : String :=
  let p := valGetD env.envValues "Prefix"
  if valTruthy p then jsToString p else ""

/-- `visitYamlTagNode` of the source: dispatch on the tag kind. -/
def visitYamlTagNodeF (visit : Visitor) (t : TagKind) (d : Val) (path : String)
    (env : Env) (g : GAcc) : VRes :=
  match t with
  | .dollarInclude =>
      match d with
      | .str s =>
          if strContains s "." then
            match jsSplit s '.' with
            | [] => .error s!"Could not find at {path}"
            | key :: selector =>
                if !(valHasKey env.envValues key) then
                  .error s!"Could not find {key} at {path}"
                else
                  match lodashGetPath (valGetD env.envValues key) selector with
                  | some r =>
                      if isUndefinedVal r then .error s!"Could not find path in {key} at {path}"
                      else visit r path env g
                  | none => .error s!"Could not find path in {key} at {path}"
          else do
            let r ← lookupInEnv d path env
            visit r path env g
      | _ => do
          let r ← lookupInEnv d path env
          visit r path env g
  | .dollarExpand => visitDollarExpandF visit d path env g
  | .dollarEscape => .ok (d, g)
  | .dollarString => do
      let stringSource := match d with
        | .arr [x] => x
        | _ => d
      let (v, g1) ← visit stringSource path env g
      .ok (.str (yamlDump v), g1)
  | .dollarParseYaml => do
      let (v, g1) ← visit d path env g
      match v with
      | .str s => do
          let parsed ← yamlLoadString s path
          visit parsed path env g1
      | _ => .error s!"parseYaml of a non-string at {path}"
  | .dollarLet => do
      let omitted := match d with
        | .map es => Val.map (objDelete es "in")
        | _ => Val.map []
      let (bindings, g1) ← visit omitted path env g
      let subEnv := mkSubEnv env (lodashMerge (.map []) [env.envValues, bindings]) .undefined path
      visit (valGetD d "in") path subEnv g1
  | .dollarMap => visitDollarMapF visit d path env g
  | .dollarFlatten =>
      if !(isArrVal d) && lodashEvery d isArrVal then
        .error s!"Invalid argument to flatten at {path}. Must be array of arrays."
      else visit (flattenVal d) path env g
  | .dollarConcatMap => do
      let (v, g1) ← visit (.tag .dollarMap d) path env g
      .ok (flattenVal v, g1)
  | .dollarMapListToHash => do
      let (v, g1) ← visit (.tag .dollarMap d) path env g
      .ok (liftKVPairs v, g1)
  | .dollarFromPairs => visit (liftKVPairs d) path env g
  | .Ref =>
      match d with
      | .str s =>
          if jsStartsWith s "AWS:" then .ok (.tag .Ref d, g)
          else .ok (.tag .Ref (.str (activePrefixString env ++ s)), g)
      | _ => .ok (.tag .Ref (.str (activePrefixString env ++ jsToString d)), g)
  | .passthrough name => do
      let (v, g1) ← visit d path env g
      .ok (tagUpdate (.passthrough name) v, g1)

/-- `visitImportedDoc` of the source: the document's own `$envValues` are
split into templates (entries owning `$params`) and non-templates; the
non-templates are visited in a sub-environment seeded by the raw
`$envValues`, the result is merged with the templates, and the document
body is visited as a map node under the processed environment. -/
def visitImportedDocF (visit : Visitor) (node : Val) (path : String) (env : Env) (g : GAcc) : VRes := do
  let envRaw := valGetD node "$envValues"
  let loc := valGetD node "$location"
  let subEnv0 := mkSubEnv env envRaw loc path
  let pairs := valEntries envRaw
  let nonTemplates := pairs.filter (fun kv => !(valHasKey kv.2 "$params"))
  let templates := pairs.filter (fun kv => valHasKey kv.2 "$params")
  let (processed, g1) ← visit (.map nonTemplates) path subEnv0 g
  let processedEnvValues := lodashMerge (.map []) [processed, .map templates]
  let subEnv := mkSubEnv env processedEnvValues loc path
  visitMapNodeF visit node path subEnv g1

/-- The global-section names, in the declaration order of the
`GlobalSections` object of the source. -/
def GlobalSectionsList : List String :=
  ["Parameters", "Metadata", "Mappings", "Conditions", "Transform", "Outputs"]

/-- `mapCustomResourceToGlobalSections`: every section present on the
expanded resource document is visited in the sub-environment, its keys are
prefixed with the raw `Prefix` coercion, and the result is merged into the
accumulator — but only when the accumulator already owns the section (a
merge into `undefined` mutates a fresh object the source discards). -/
def mapCustomGSGo (visit : Visitor) (resourceDoc : Val) (path : String) (env : Env) :
    List String → GAcc → Except String GAcc
  | [], g => .ok g
  | sect :: rest, g =>
      if valTruthy (valGetD resourceDoc sect) then do
        let (v, g1) ← visit (valGetD resourceDoc sect) (appendPath path sect) env g
        let prefixed := fromPairs ((valEntries v).map
          (fun kv => (jsToString (valGetD env.envValues "Prefix") ++ kv.1, kv.2)))
        let g2 := match objGet g1 sect with
          | some gsec => objSet g1 sect (mergeVal gsec (.map prefixed))
          | none => g1
        mapCustomGSGo visit resourceDoc path env rest g2
      else mapCustomGSGo visit resourceDoc path env rest g

/-- The `$paramDefaults` loop of `visitResourceNode`: each declared
parameter's `Default` is visited in the defaults environment; entries whose
visited default is `undefined` are dropped. -/
def paramDefaultsGo (visit : Visitor) (name : String) (path : String) (defEnv : Env) :
    List Val → GAcc → Except String (Entries × GAcc)
  | [], g => .ok ([], g)
  | p :: rest, g => do
      let nm := jsToString (valGetD p "Name")
      let (dv, g1) ← visit (valGetD p "Default")
        (appendPath path (name ++ ".$params." ++ nm)) defEnv g
      let (prs, g2) ← paramDefaultsGo visit name path defEnv rest g1
      if isUndefinedVal dv then .ok (prs, g2) else .ok ((nm, dv) :: prs, g2)

/-- The parameter-validation loop of `visitResourceNode`: missing value,
then JSON Schema, then `AllowedValues`, then `AllowedPattern`. -/
def validateParamsGo (name : String) (mergedParams : Val) :
    List Val → Except String Unit
  | [] => .ok ()
  | param :: rest =>
      let pname := jsToString (valGetD param "Name")
      let paramValue := valGetD mergedParams pname
      if isUndefinedVal paramValue then
        .error s!"Missing required parameter {pname} in {name}"
      else if valTruthy (valGetD param "Schema") then
        if !(isObjectVal (valGetD param "Schema")) then
          .error s!"Invalid schema {pname} in {name}."
        else if !(tv4ValidateResult paramValue (valGetD param "Schema")) then
          .error s!"Parameter validation error for {pname} in {name}."
        else validateParamsGo name mergedParams rest
      else if valTruthy (valGetD param "AllowedValues") then
        if !(lodashIncludesVal (valGetD param "AllowedValues") paramValue) then
          .error s!"Parameter validation error for {pname} in {name}."
        else validateParamsGo name mergedParams rest
      else if valTruthy (valGetD param "AllowedPattern") then
        match paramValue with
        | .str s =>
            if regexTestModel (jsToString (valGetD param "AllowedPattern")) s then
              validateParamsGo name mergedParams rest
            else .error s!"Invalid value {pname} in {name}."
        | _ => .error s!"Invalid value {pname} in {name}."
      else validateParamsGo name mergedParams rest

/-- One entry of `visitResourceNode`: either a template expansion (the
resource's `Type` names a truthy environment value), a native
`AWS`/`Custom` resource visited in place, or an error.  Degenerate truthy
non-string `Type` values (on which JavaScript `indexOf` coercion throws or
searches arrays) are modelled as the invalid-resource-type error. -/
def visitResourceEntryF (visit : Visitor) (name : String) (resource : Val)
    (path : String) (env : Env) (g : GAcc) : Except String (Entries × GAcc) :=
  let typeVal := valGetD resource "Type"
  let envEntry := valGet env.envValues (jsToString typeVal)
  match envEntry with
  | some template =>
      if valTruthy template then do
        let pfx := if isUndefinedVal (valGetD resource "NamePrefix") then Val.str name
                   else valGetD resource "NamePrefix"
        let frameLoc := valGetD template "$location"
        let framePath := appendPath path name
        let (ovVisited, g1) ← visit (valGetD resource "Overrides")
          (appendPath path (name ++ ".Overrides")) env g
        let resourceDoc := lodashMerge (.map []) [template, ovVisited]
        let defEnv := mkSubEnv env
          (lodashMerge2 (.map [("Prefix", pfx)]) (valGetD template "$envValues"))
          frameLoc framePath
        let (paramDefaults, g2) ← paramDefaultsGo visit name path defEnv
          (lodashList (valGetD template "$params")) g1
        let (providedParams, g3) ← visit (valGetD resource "Properties")
          (appendPath path (name ++ ".Properties")) env g2
        let mergedParams := lodashMerge (.map []) [.map (fromPairs paramDefaults), providedParams]
        let _ ← validateParamsGo name mergedParams (lodashList (valGetD template "$params"))
        let subEnv := mkSubEnv env
          (lodashMerge (.map [("Prefix", pfx)])
            [.map (fromPairs paramDefaults), providedParams, valGetD template "$envValues"])
          frameLoc framePath
        let (outputResources, g4) ← visit (valGetD resourceDoc "Resources")
          (appendPath path (name ++ ".Resources")) subEnv g3
        let g5 ← mapCustomGSGo visit resourceDoc path subEnv GlobalSectionsList g4
        let outPairs := (valEntries outputResources).map
          (fun kv => (jsToString (valGetD subEnv.envValues "Prefix") ++ kv.1, kv.2))
        .ok (outPairs, g5)
      else
        match typeVal with
        | .str ts =>
            if jsStartsWith ts "AWS" ∨ jsStartsWith ts "Custom" then do
              let (v, g1) ← visit resource (appendPath path name) env g
              .ok ([(name, v)], g1)
            else .error s!"Invalid resource type at {path}"
        | _ => .error s!"Invalid resource type at {path}"
  | none =>
      match typeVal with
      | .str ts =>
          if jsStartsWith ts "AWS" ∨ jsStartsWith ts "Custom" then do
            let (v, g1) ← visit resource (appendPath path name) env g
            .ok ([(name, v)], g1)
          else .error s!"Invalid resource type at {path}"
      | _ => .error s!"Invalid resource type at {path}"

/-- The entry loop of `visitResourceNode`, concatenating the per-entry
output pairs (`_flatten` over the mapped pairs). -/
def visitResourceGo (visit : Visitor) :
    Entries → String → Env → GAcc → Except String (Entries × GAcc)
  | [], _, _, g => .ok ([], g)
  | (name, resource) :: rest, path, env, g => do
      let (pairs1, g1) ← visitResourceEntryF visit name resource path env g
      let (pairs2, g2) ← visitResourceGo visit rest path env g1
      .ok (pairs1 ++ pairs2, g2)

/-- `visitResourceNode` of the source. -/
def visitResourceNodeF (visit : Visitor) (node : Val) (path : String) (env : Env) (g : GAcc) : VRes := do
  let (pairs, g1) ← visitResourceGo visit (valEntries node) path env g
  .ok (.map (fromPairs pairs), g1)

/-- `2020-01-02T…` to its date part (`toISOString().split('T')[0]`). -/
def isoDatePart (iso : String) : String :=
  (jsSplit iso 'T').headD iso

/-- The dispatch body of `visitNode`: the Resources context first, the
`$envValues` guard, then tag / array / plain-map / Date / string / scalar
in the order of the source. -/
def visitNodeBody (visit : Visitor) (node : Val) (path : String) (env : Env) (g : GAcc) : VRes :=
  let currNode := currNodeOf path
  if isResourcesCtx path then
    visitResourceNodeF visit node path env g
  else if currNode = "$envValues" then
    .error s!"Should not be able to reach here: {path}"
  else
    match node with
    | .tag t d => visitYamlTagNodeF visit t d path env g
    | .arr xs => do
        let (vs, g1) ← visitArrayGo visit xs 0 path env g
        .ok (.arr vs, g1)
    | .map es =>
        if valTruthy ((objGet es "$params").getD .undefined) then
          .error s!"Templates should be called via expand or as CFN resource types: {path}"
        else if valTruthy ((objGet es "$envValues").getD .undefined) then
          visitImportedDocF visit node path env g
        else visitMapNodeF visit node path env g
    | .date iso =>
        if currNode = "Version" ∨ currNode = "AWSTemplateFormatVersion" then
          .ok (.str (isoDatePart iso), g)
        else .ok (node, g)
    | .str s => do
        let v ← visitStringNode s path env
        .ok (v, g)
    | _ => .ok (node, g)

/-- `visitNode` of the source, with fuel: one unit is consumed per visited
node, and exhaustion is an error (modelling divergence of the source on
cyclic evaluations). -/
def visitNode : Nat → Val → String → Env → GAcc → VRes
  | 0, _, _, _, _ => .error "visitNode: recursion limit exceeded"
  | n + 1, node, path, env, g => visitNodeBody (visitNode n) node path env g

/-! ## The import graph walker -/

/-- The result of one loader call (`ImportData` of the source); an absent
`doc` is `Val.undefined`. -/
structure ImportData where
  importType : String
  resolvedLocation : String
  data : String
  doc : Val

/-- A pluggable import loader (`importLoader` of the source — a test seam;
the default `readFromImportLocation` performs I/O and is outside this
model). -/
abbrev Loader := String → String → Except String ImportData

/-- One entry of the provenance log (`ImportRecord` of the source). -/
structure ImportRecord where
  key : Option String
  «from» : String
  imported : String
  sha256Digest : String
  deriving Repr, DecidableEq

/-- The structured form of a record as it is embedded under
`Metadata.iidy.Imports` (field order of the object literal in
`loadImports`). -/
def importRecordToVal (r : ImportRecord) : Val :=
  .map [("from", .str r.«from»), ("imported", .str r.imported),
        ("sha256Digest", .str r.sha256Digest),
        ("key", match r.key with | some s => .str s | none => .null)]

/-- The whole log as the `Imports` array. -/
def importRecordsToVal (rs : List ImportRecord) : Val :=
  .arr (rs.map importRecordToVal)

/-- The `$imports` loop of `loadImports`, processing entries in declaration
order with the partially built `$envValues`: interpolate the location
expression when it carries `{{…}}`, call the loader, stamp `$location` on
object documents, append the `ImportRecord`, run the duplicate check
(`_.includes(doc.$envValues, asKey)` — VALUE membership), bind the name,
and recurse into documents owning `$imports` or `$defs`. -/
def loadImportsGoImports
    (recurse : Val → String → List ImportRecord → Except String (Val × List ImportRecord))
    (loader : Loader) (baseLocation : String) :
    Entries → Entries → List ImportRecord → Except String (Entries × List ImportRecord)
  | [], env, recs => .ok (env, recs)
  | (asKey, locVal) :: rest, env, recs => do
      let loc0 ← (match locVal with
        | .str s => Except.ok s
        | _ => .error s!"TypeError: the import location of {asKey} is not a string")
      let loc ← if hasHB loc0 then
          interpolateHandlebarsString loc0 (.map env) s!"{baseLocation}: {asKey}"
        else pure loc0
      let importData ← loader loc baseLocation
      let idoc := if isObjectVal importData.doc then
          valSetKey importData.doc "$location" (.str loc)
        else importData.doc
      let recs1 := recs ++ [{ «from» := baseLocation,
                              imported := importData.resolvedLocation,
                              sha256Digest := sha256Digest importData.data,
                              key := some asKey }]
      if includesValue env asKey then
        .error s!"Duplicate import name {asKey} in {baseLocation}"
      else do
        let (idoc2, recs2) ←
          if valTruthy (valGetD idoc "$imports") || valTruthy (valGetD idoc "$defs") then
            recurse idoc importData.resolvedLocation recs1
          else pure (idoc, recs1)
        loadImportsGoImports recurse loader baseLocation rest (objSet env asKey idoc2) recs2

/-- The `$defs` loop of `loadImports`: bind each definition, failing on a
KEY collision with the names already bound. -/
def loadDefsGo (baseLocation : String) : Entries → Entries → Except String Entries
  | [], env => .ok env
  | (k, v) :: rest, env =>
      if k ∈ objKeys env then
        .error s!"{k} in defs collides with the same name in imports of {baseLocation}"
      else loadDefsGo baseLocation rest (objSet env k v)

/-- The `$params` guard of `loadImports`: a declared parameter whose `Name`
collides with a bound name is an error (string names only — the
`_.includes(_.keys(…), Name)` SameValueZero comparison can only match a
string). -/
def loadParamsGuard (baseLocation : String) (env : Entries) :
    List Val → Except String Unit
  | [] => .ok ()
  | p :: rest =>
      let nm := valGetD p "Name"
      if (match nm with | .str s => decide (s ∈ objKeys env) | _ => false) then
        .error s!"A name in params collides with imports or defs of {baseLocation}"
      else loadParamsGuard baseLocation env rest

/-- The body of `loadImports`: the `$imports` loop, the `$defs` loop and
the `$params` guard, producing the final `$envValues` entries and the log
of imports.  The recursive `loadImports` call for nested imports is the
`recurse` parameter. -/
def loadImportsEnv
    (recurse : Val → String → List ImportRecord → Except String (Val × List ImportRecord))
    (loader : Loader) (doc : Val) (baseLocation : String)
    (importsAccum : List ImportRecord) :
    Except String (Entries × List ImportRecord) := do
  let imps := valGetD doc "$imports"
  let (env1, recs1) ←
    if valTruthy imps then
      if !(isMapVal imps) then
        .error s!"Invalid imports in {baseLocation}: should be a mapping"
      else
        loadImportsGoImports recurse loader baseLocation (valEntries imps) [] importsAccum
    else pure ([], importsAccum)
  let defs := valGetD doc "$defs"
  let env2 ← if valTruthy defs then loadDefsGo baseLocation (valEntries defs) env1
             else pure env1
  let ps := valGetD doc "$params"
  let _ ← (if valTruthy ps then
      match ps with
      | .arr l => loadParamsGuard baseLocation env2 l
      | .str _ => Except.ok ()
      | _ => .error s!"TypeError: the params of {baseLocation} are not iterable"
    else Except.ok ())
  .ok (env2, recs1)

/-- `loadImports` of the source.  The source initialises
`doc.$envValues = {}` and mutates it while looping; the model threads the
environment (`loadImportsEnv`) and attaches it as the single modified key
of the returned document.  Fuel bounds the recursion through imported
documents.  A non-mapping document is an error (strict-mode property
assignment on a primitive throws; property attachment to arrays is not
representable in the tree model). -/
def loadImports : Nat → Loader → Val → String → List ImportRecord →
    Except String (Val × List ImportRecord)
  | 0, _, _, _, _ => .error "loadImports: recursion limit exceeded"
  | n + 1, loader, doc, baseLocation, importsAccum =>
      match doc with
      | .map _ => do
          let (env2, recs1) ← loadImportsEnv (fun d b r => loadImports n loader d b r)
            loader doc baseLocation importsAccum
          .ok (valSetKey doc "$envValues" (.map env2), recs1)
      | _ => .error s!"loadImports: the document at {baseLocation} is not a mapping"

/-! ## The output assembler -/

/-- The final global-section loop of `transformPostImports`: each
non-empty accumulator section is merged over the output's section
(`output[S] = _.merge({}, output[S], globalAccum[S])`). -/
def applyGlobalSections (gacc : GAcc) : List String → Entries → Entries
  | [], out => out
  | sect :: rest, out =>
      let out' := if !(isEmptyVal ((objGet gacc sect).getD .undefined)) then
          objSet out sect (lodashMerge (.map [])
            [((objGet out sect).getD .undefined), ((objGet gacc sect).getD .undefined)])
        else out
      applyGlobalSections gacc rest out'

/-- The inner `{Host, Imports, User}` provenance mapping (object-literal
key order of the source). -/
def iidyEntry (accumulatedImports : List ImportRecord) : Val :=
  .map [("Host", .str osHostname),
        ("Imports", importRecordsToVal accumulatedImports),
        ("User", .str osUserName)]

/-- The provenance stamp seeded into the accumulator:
`{iidy: {Host, Imports, User}}`. -/
def iidyStamp (accumulatedImports : List ImportRecord) : Val :=
  .map [("iidy", iidyEntry accumulatedImports)]

/-- Does the root look like a CloudFormation document
(`root.AWSTemplateFormatVersion || root.Resources`)? -/
def isCFNDocVal (root : Val) : Bool :=
  valTruthy (valGetD root "AWSTemplateFormatVersion")
  || valTruthy (valGetD root "Resources")

/-- The accumulator `transformPostImports` starts from: the provenance
stamp under `Metadata`, extended with empty `Parameters`, `Conditions`,
`Mappings` and `Outputs` sections for CloudFormation documents. -/
def initialGlobalAccum (root : Val) (accumulatedImports : List ImportRecord) : GAcc :=
  let g : GAcc := [("Metadata", iidyStamp accumulatedImports)]
  if isCFNDocVal root then
    extendEntries g (.map [("Parameters", .map []), ("Conditions", .map []),
                           ("Mappings", .map []), ("Outputs", .map [])])
  else g

/-- The seed output: the `AWSTemplateFormatVersion := '2010-09-09'` write
for CloudFormation documents, nothing otherwise. -/
def seedOutputOf (root : Val) : Entries :=
  if isCFNDocVal root then [("AWSTemplateFormatVersion", .str "2010-09-09")] else []

/-- The root environment of the walk:
`$envValues: root.$envValues || {}` and the root stack frame. -/
def rootVisitEnv (root : Val) (rootDocLocation : String) : Env :=
  let rootEnvRaw := valGetD root "$envValues"
  { envValues := if valTruthy rootEnvRaw then rootEnvRaw else .map [],
    stack := [⟨.str rootDocLocation, "Root"⟩] }

/-- `transformPostImports` of the source: seed the accumulator with the
provenance stamp (plus empty global sections and the
`AWSTemplateFormatVersion` seed when the root looks like a CloudFormation
document), visit the root, extend the seed with the visited document
(visited keys overriding the seed), merge the non-empty accumulator
sections into the output, and delete the root-level `$imports`, `$defs`
and `$envValues`. -/
def transformPostImports (fuel : Nat) (root : Val) (rootDocLocation : String)
    (accumulatedImports : List ImportRecord) : Except String Val := do
  let (visited, gacc) ← visitNode fuel root "Root" (rootVisitEnv root rootDocLocation)
      (initialGlobalAccum root accumulatedImports)
  let output := extendEntries (seedOutputOf root) visited
  let output := if isCFNDocVal root then applyGlobalSections gacc GlobalSectionsList output
    else output
  .ok (.map (objDelete (objDelete (objDelete output "$imports") "$defs") "$envValues"))

/-- `_.clone` — a SHALLOW copy: a fresh top-level property table sharing
every sub-value.  On a pure value tree the copy is the value itself; the
fresh table is what makes the top-level writes of `loadImports` invisible
to the caller of `transform`. -/
def lodashClone (v : Val) : Val := v

/-- `transform` of the source: clone the root, load the import graph into
the clone, and assemble the output. -/
def transform (fuel : Nat) (loader : Loader) (root0 : Val) (rootDocLocation : String) :
    Except String Val := do
  let root := lodashClone root0
  let (root', accumulatedImports) ← loadImports fuel loader root rootDocLocation []
  transformPostImports fuel root' rootDocLocation accumulatedImports

/-! ## Claim-level predicates and concrete instances -/

mutual

/-- Does a key named `k` occur at any depth of the value — at the top
level of the value itself or of any nested mapping (mappings inside
sequences and tag payloads included)?  This is the containment predicate
quantified by spec invariant 3. -/
def hasKeyDeep (v : Val) (k : String) : Bool :=
  match v with
  | .map es => objHasKey es k || hasKeyDeepEntries es k
  | .arr xs => hasKeyDeepList xs k
  | .tag _ p => hasKeyDeep p k
  | _ => false

/-- Deep key search through entry values. -/
def hasKeyDeepEntries : Entries → String → Bool
  | [], _ => false
  | (_, v) :: rest, k => hasKeyDeep v k || hasKeyDeepEntries rest k

/-- Deep key search through sequence elements. -/
def hasKeyDeepList : List Val → String → Bool
  | [], _ => false
  | x :: rest, k => hasKeyDeep x k || hasKeyDeepList rest k

end

/-- A loader for documents without imports: any call is a failure. -/
def noImportsLoader : Loader := fun _ _ => .error "no loader available"

/-- A mock loader resolving `literal:x`-style locations to the string
after the colon (the `literal` scheme of the source, as a test seam). -/
def literalMockLoader : Loader := fun loc _ =>
  match jsSplit loc ':' with
  | [_, payload] =>
      .ok { importType := "literal", resolvedLocation := payload,
            data := payload, doc := .str payload }
  | _ => .error "bad mock location"

/-- C1 counterexample input: a document with a `$defs` mapping nested one
level down. -/
def c1CexDoc : Val :=
  .map [("A", .map [("$defs", .map [("x", .num 1)])])]

/-- C1 counterexample output (the transform of `c1CexDoc`). -/
def c1CexOut : Val :=
  .map [("A", .map [("$defs", .map [("x", .num 1)])])]

/-- The meta-keys `visitMapNode` drops (note: `$defs` is NOT among
them). -/
def mapNodeSkipKeys : List String :=
  ["$envValues", "$imports", "$params", "$location"]

/-- Erase the four dropped meta-keys from the top level of a mapping. -/
def eraseMapMetaKeys (v : Val) : Val :=
  match v with
  | .map es => .map (es.filter (fun kv => kv.1 ∉ mapNodeSkipKeys))
  | _ => v

/-- C2 failing input: two imports where the DOCUMENT VALUE loaded for the
first (`name2`) equals the NAME of the second. -/
def c2FailingDoc : Val :=
  .map [("$imports", .map [("A", .str "literal:name2"), ("name2", .str "literal:x")])]

/-- C3 counterexample input: a document that is not a CloudFormation
document. -/
def c3CexDoc : Val := .map [("Message", .str "hi")]

/-- C3 witness input: a minimal CloudFormation document. -/
def c3WitDoc : Val := .map [("Resources", .map [])]

/-- C4 counterexample input: a document carrying a non-standard
`AWSTemplateFormatVersion`. -/
def c4CexDoc : Val := .map [("AWSTemplateFormatVersion", .str "bogus")]

/-- C4 second-conjunct witness input: a custom resource `foo` expanding a
template `T` (bound through `$envValues`) that hoists an `Outputs`
section. -/
def c4SectionsDoc : Val :=
  .map [("Resources", .map [("foo", .map [("Type", .str "T")])]),
        ("$envValues", .map [("T", .map [
            ("Resources", .map [("R", .map [("Type", .str "AWS::X")])]),
            ("Outputs", .map [("O", .str "out")])])])]

/-- The accumulator state after visiting `c4SectionsDoc`: the hoisted,
prefixed `Outputs` entry joins the stamp and the empty seeded sections. -/
def c4SectionsGacc : GAcc :=
  [("Metadata", .map [("iidy", iidyEntry [])]),
   ("Parameters", .map []),
   ("Conditions", .map []),
   ("Mappings", .map []),
   ("Outputs", .map [("fooO", .str "out")])]

/-- The assembled output of `c4SectionsDoc`. -/
def c4SectionsOut : Val :=
  .map [("AWSTemplateFormatVersion", .str "2010-09-09"),
        ("Resources", .map [("fooR", .map [("Type", .str "AWS::X")])]),
        ("Metadata", .map [("iidy", iidyEntry [])]),
        ("Outputs", .map [("fooO", .str "out")])]

/-- C7 counterexample environment: `x` is bound in the outer environment
and `T` names a template whose body includes `x`. -/
def c7CexEnv : Env :=
  { envValues := .map [("x", .num 1),
                       ("T", .map [("Body", .tag .dollarInclude (.str "x"))])],
    stack := [⟨.str "file:root.yaml", "Root"⟩] }

/-- C7 counterexample node: `$expand` of `T` supplying `x = 2`. -/
def c7CexNode : Val :=
  .tag .dollarExpand (.map [("template", .str "T"), ("params", .map [("x", .num 2)])])

/-- C8 counterexample environment: the default variable name `item` is
already bound in the outer environment. -/
def c8CexEnv : Env :=
  { envValues := .map [("item", .str "X")],
    stack := [⟨.str "file:root.yaml", "Root"⟩] }

/-- C8 counterexample node: a `$map` over `[1]` whose template includes
`item`. -/
def c8CexNode : Val :=
  .tag .dollarMap (.map [("items", .arr [.num 1]),
                         ("template", .tag .dollarInclude (.str "item"))])

/-- C8 collision-free demonstration node: a `$map` over `[5, 7]` whose
template includes `item`. -/
def c8DemoNode : Val :=
  .tag .dollarMap (.map [("items", .arr [.num 5, .num 7]),
                         ("template", .tag .dollarInclude (.str "item"))])

/-- An environment with no bindings at the root frame. -/
def emptyRootEnv : Env :=
  { envValues := .map [], stack := [⟨.str "file:root.yaml", "Root"⟩] }

/-! ## Association-list lemmas -/

theorem objGet_objSet_self (es : Entries) (k : String) (v : Val) :
    objGet (objSet es k v) k = some v := by
  induction es with
  | nil => simp [objSet, objGet]
  | cons kv rest ih =>
      obtain ⟨k', v'⟩ := kv
      by_cases h : k' = k
      · simp [objSet, objGet, h]
      · simp [objSet, objGet, h, ih]

theorem objGet_objSet_ne (es : Entries) (k k' : String) (v : Val) (h : k ≠ k') :
    objGet (objSet es k v) k' = objGet es k' := by
  induction es with
  | nil => simp [objSet, objGet, h]
  | cons kv rest ih =>
      obtain ⟨k1, v1⟩ := kv
      by_cases h1 : k1 = k
      · subst h1
        simp [objSet, objGet, h]
      · simp [objSet, objGet, h1, ih]

theorem objGet_objDelete_self (es : Entries) (k : String) :
    objGet (objDelete es k) k = none := by
  induction es with
  | nil => simp [objDelete, objGet]
  | cons kv rest ih =>
      obtain ⟨k1, v1⟩ := kv
      by_cases h1 : k1 = k
      · simpa [objDelete, h1] using ih
      · simpa [objDelete, objGet, h1] using ih

theorem objGet_objDelete_ne (es : Entries) (k k' : String) (h : k ≠ k') :
    objGet (objDelete es k) k' = objGet es k' := by
  induction es with
  | nil => simp [objDelete, objGet]
  | cons kv rest ih =>
      obtain ⟨k1, v1⟩ := kv
      by_cases h1 : k1 = k
      · subst h1
        have hf : objDelete ((k1, v1) :: rest) k1 = objDelete rest k1 := by
          simp [objDelete]
        rw [hf, ih]
        simp [objGet, h]
      · have hf : objDelete ((k1, v1) :: rest) k = (k1, v1) :: objDelete rest k := by
          simp [objDelete, h1]
        rw [hf]
        by_cases h2 : k1 = k'
        · simp [objGet, h2]
        · simp [objGet, h2, ih]

theorem objGet_eq_none_iff (es : Entries) (k : String) :
    objGet es k = none ↔ k ∉ objKeys es := by
  induction es with
  | nil => simp [objGet, objKeys]
  | cons kv rest ih =>
      obtain ⟨k1, v1⟩ := kv
      by_cases h1 : k1 = k
      · simp [objGet, objKeys, h1]
      · simp [objGet, objKeys, h1, ih, Ne.symm h1]

theorem objGet_some_mem (es : Entries) (k : String) (v : Val)
    (h : objGet es k = some v) : (k, v) ∈ es := by
  induction es with
  | nil => simp [objGet] at h
  | cons kv rest ih =>
      obtain ⟨k1, v1⟩ := kv
      by_cases h1 : k1 = k
      · subst h1
        simp [objGet] at h
        simp [h]
      · simp [objGet, h1] at h
        exact List.mem_cons_of_mem _ (ih h)

theorem objGet_append_left (a b : Entries) (k : String) (v : Val)
    (h : objGet a k = some v) : objGet (a ++ b) k = some v := by
  induction a with
  | nil => simp [objGet] at h
  | cons kv rest ih =>
      obtain ⟨k1, v1⟩ := kv
      by_cases h1 : k1 = k
      · subst h1
        simp [objGet] at h ⊢
        exact h
      · simp [objGet, h1] at h ⊢
        exact ih h

theorem objGet_append_right (a b : Entries) (k : String)
    (h : objGet a k = none) : objGet (a ++ b) k = objGet b k := by
  induction a with
  | nil => simp
  | cons kv rest ih =>
      obtain ⟨k1, v1⟩ := kv
      by_cases h1 : k1 = k
      · subst h1
        simp [objGet] at h
      · simp [objGet, h1] at h ⊢
        exact ih h

theorem objKeys_objSet (es : Entries) (k : String) (v : Val) :
    objKeys (objSet es k v) = if k ∈ objKeys es then objKeys es else objKeys es ++ [k] := by
  induction es with
  | nil => simp [objSet, objKeys]
  | cons kv rest ih =>
      obtain ⟨k1, v1⟩ := kv
      by_cases h1 : k1 = k
      · subst h1
        simp [objSet, objKeys]
      · have hset : objSet ((k1, v1) :: rest) k v = (k1, v1) :: objSet rest k v := by
          simp [objSet, h1]
        have hkeys : objKeys ((k1, v1) :: objSet rest k v) = k1 :: objKeys (objSet rest k v) := rfl
        rw [hset, hkeys, ih]
        simp only [objKeys]
        by_cases h2 : k ∈ List.map Prod.fst rest
        · simp [h2]
        · simp [h2, Ne.symm h1]

theorem objKeys_objSet_nodup (es : Entries) (k : String) (v : Val)
    (h : (objKeys es).Nodup) : (objKeys (objSet es k v)).Nodup := by
  rw [objKeys_objSet]
  by_cases hm : k ∈ objKeys es
  · simpa [hm] using h
  · simp only [hm, if_false]
    rw [List.nodup_append]
    refine ⟨h, List.nodup_singleton k, ?_⟩
    intro a ha hb
    simp only [List.mem_singleton] at hb
    subst hb
    exact hm ha

theorem objSetFold_get_not_in_src (src : Entries) (dst : Entries) (k : String)
    (h : ∀ e ∈ src, e.1 ≠ k) :
    objGet (objSetFold dst src) k = objGet dst k := by
  induction src generalizing dst with
  | nil => simp [objSetFold]
  | cons kv rest ih =>
      obtain ⟨k1, v1⟩ := kv
      have hk1 : k1 ≠ k := h (k1, v1) (by simp)
      rw [objSetFold, ih _ (fun e he => h e (List.mem_cons_of_mem _ he))]
      exact objGet_objSet_ne dst k1 k v1 hk1

theorem objSetFold_get_src (src : Entries) (dst : Entries) (k : String) (v : Val)
    (hnd : (objKeys src).Nodup) (hmem : (k, v) ∈ src) :
    objGet (objSetFold dst src) k = some v := by
  induction src generalizing dst with
  | nil => simp at hmem
  | cons kv rest ih =>
      obtain ⟨k1, v1⟩ := kv
      simp only [objKeys, List.map] at hnd
      rw [List.nodup_cons] at hnd
      rcases List.mem_cons.mp hmem with heq | htail
      · have hk : k = k1 := congrArg Prod.fst heq
        have hv : v = v1 := congrArg Prod.snd heq
        subst hk
        subst hv
        rw [objSetFold]
        rw [objSetFold_get_not_in_src rest (objSet dst k v) k
          (fun e he hek => hnd.1 (hek ▸ List.mem_map.mpr ⟨e, he, rfl⟩))]
        exact objGet_objSet_self dst k v
      · rw [objSetFold]
        exact ih (objSet dst k1 v1) hnd.2 htail

theorem objGet_append_single_ne (d : Entries) (k1 k : String) (v1 : Val) (h : k1 ≠ k) :
    objGet (d ++ [(k1, v1)]) k = objGet d k := by
  cases hd : objGet d k with
  | some v => exact objGet_append_left d _ k v hd
  | none =>
      rw [objGet_append_right d _ k hd]
      simp [objGet, h]

/-! ## Merge lemmas -/

theorem mergeGo_get_not_in_src (s : Entries) (d : Entries) (k : String)
    (h : ∀ e ∈ s, e.1 ≠ k) :
    objGet (mergeEntriesGo d s) k = objGet d k := by
  induction s generalizing d with
  | nil => rw [mergeEntriesGo]
  | cons kv rest ih =>
      obtain ⟨k1, v1⟩ := kv
      have hk1 : k1 ≠ k := h (k1, v1) (by simp)
      have hrest : ∀ e ∈ rest, e.1 ≠ k := fun e he => h e (List.mem_cons_of_mem _ he)
      rw [mergeEntriesGo]
      cases hd : objGet d k1 with
      | some dv =>
          by_cases hu : isUndefinedVal v1
          · simp only [hd, hu, if_pos]
            exact ih d hrest
          · simp only [hd, hu, if_neg, Bool.false_eq_true, not_false_iff]
            rw [ih _ hrest]
            exact objGet_objSet_ne d k1 k _ hk1
      | none =>
          simp only [hd]
          rw [ih _ hrest]
          exact objGet_append_single_ne d k1 k v1 hk1

theorem mergeGo_get_src_of_none (s : Entries) (d : Entries) (k : String) (v : Val)
    (hd : objGet d k = none) (hnd : (objKeys s).Nodup) (hmem : (k, v) ∈ s) :
    objGet (mergeEntriesGo d s) k = some v := by
  induction s generalizing d with
  | nil => simp at hmem
  | cons kv rest ih =>
      obtain ⟨k1, v1⟩ := kv
      simp only [objKeys, List.map] at hnd
      rw [List.nodup_cons] at hnd
      rw [mergeEntriesGo]
      rcases List.mem_cons.mp hmem with heq | htail
      · have hk : k = k1 := congrArg Prod.fst heq
        have hv : v = v1 := congrArg Prod.snd heq
        subst hk
        subst hv
        simp only [hd]
        rw [mergeGo_get_not_in_src rest _ k
          (fun e he hek => hnd.1 (hek ▸ List.mem_map.mpr ⟨e, he, rfl⟩))]
        rw [objGet_append_right d _ k hd]
        simp [objGet]
      · have hk1 : k1 ≠ k := by
          intro hcontra
          exact hnd.1 (hcontra ▸ List.mem_map.mpr ⟨(k, v), htail, rfl⟩)
        cases hdd : objGet d k1 with
        | some dv =>
            by_cases hu : isUndefinedVal v1
            · simp only [hdd, hu, if_pos]
              exact ih d hd hnd.2 htail
            · simp only [hdd, hu, if_neg, Bool.false_eq_true, not_false_iff]
              exact ih _ ((objGet_objSet_ne d k1 k _ hk1).trans hd) hnd.2 htail
        | none =>
            simp only [hdd]
            exact ih _ ((objGet_append_single_ne d k1 k v1 hk1).trans hd) hnd.2 htail

theorem mergeVal_scalar_src (dv w : Val)
    (h1 : isMapVal w = false) (h2 : isArrVal w = false) (h3 : isUndefinedVal w = false) :
    mergeVal dv w = w := by
  cases dv <;> cases w <;> simp_all [mergeVal, isMapVal, isArrVal, isUndefinedVal]

theorem mergeGo_get_src_scalar (s : Entries) (d : Entries) (k : String) (w : Val)
    (hnd : (objKeys s).Nodup) (hmem : (k, w) ∈ s)
    (h1 : isMapVal w = false) (h2 : isArrVal w = false) (h3 : isUndefinedVal w = false) :
    objGet (mergeEntriesGo d s) k = some w := by
  induction s generalizing d with
  | nil => simp at hmem
  | cons kv rest ih =>
      obtain ⟨k1, v1⟩ := kv
      simp only [objKeys, List.map] at hnd
      rw [List.nodup_cons] at hnd
      rw [mergeEntriesGo]
      rcases List.mem_cons.mp hmem with heq | htail
      · have hk : k = k1 := congrArg Prod.fst heq
        have hv : w = v1 := congrArg Prod.snd heq
        subst hk
        subst hv
        have hskip : ∀ e ∈ rest, e.1 ≠ k :=
          fun e he hek => hnd.1 (hek ▸ List.mem_map.mpr ⟨e, he, rfl⟩)
        cases hdd : objGet d k with
        | some dv =>
            simp only [hdd, h3, if_neg, Bool.false_eq_true, not_false_iff]
            rw [mergeGo_get_not_in_src rest _ k hskip]
            rw [mergeVal_scalar_src dv w h1 h2 h3]
            exact objGet_objSet_self d k w
        | none =>
            simp only [hdd]
            rw [mergeGo_get_not_in_src rest _ k hskip]
            rw [objGet_append_right d _ k hdd]
            simp [objGet]
      · have hk1 : k1 ≠ k := by
          intro hcontra
          exact hnd.1 (hcontra ▸ List.mem_map.mpr ⟨(k, w), htail, rfl⟩)
        cases hdd : objGet d k1 with
        | some dv =>
            by_cases hu : isUndefinedVal v1
            · simp only [hdd, hu, if_pos]
              exact ih d hnd.2 htail
            · simp only [hdd, hu, if_neg, Bool.false_eq_true, not_false_iff]
              exact ih _ hnd.2 htail
        | none =>
            simp only [hdd]
            exact ih _ hnd.2 htail

/-! ## Global-section loop lemmas -/

theorem applyGS_get_not_mem (sections : List String) (g : GAcc) (out : Entries) (k : String)
    (h : k ∉ sections) :
    objGet (applyGlobalSections g sections out) k = objGet out k := by
  induction sections generalizing out with
  | nil => rw [applyGlobalSections]
  | cons s rest ih =>
      have hks : s ≠ k := by
        intro hcontra
        exact h (hcontra ▸ List.mem_cons_self s rest)
      have hrest : k ∉ rest := fun hr => h (List.mem_cons_of_mem _ hr)
      rw [applyGlobalSections]
      by_cases he : isEmptyVal ((objGet g s).getD .undefined)
      · simp only [he, Bool.not_true, Bool.false_eq_true, if_neg, not_false_iff]
        exact ih out hrest
      · simp only [eq_false_of_ne_true he, Bool.not_false, if_pos]
        rw [ih _ hrest]
        exact objGet_objSet_ne out s k _ hks

theorem applyGS_get_mem (sections : List String) (g : GAcc) (out : Entries) (sect : String)
    (hnd : sections.Nodup) (hmem : sect ∈ sections)
    (hne : isEmptyVal ((objGet g sect).getD .undefined) = false) :
    objGet (applyGlobalSections g sections out) sect =
      some (lodashMerge (.map [])
        [((objGet out sect).getD .undefined), ((objGet g sect).getD .undefined)]) := by
  induction sections generalizing out with
  | nil => simp at hmem
  | cons s rest ih =>
      rw [List.nodup_cons] at hnd
      rw [applyGlobalSections]
      rcases List.mem_cons.mp hmem with heq | htail
      · subst heq
        simp only [hne, Bool.not_false, if_pos]
        rw [applyGS_get_not_mem rest g _ sect hnd.1]
        exact objGet_objSet_self out sect _
      · have hks : s ≠ sect := by
          intro hcontra
          exact hnd.1 (hcontra ▸ htail)
        by_cases he : isEmptyVal ((objGet g s).getD .undefined)
        · simp only [he, Bool.not_true, Bool.false_eq_true, if_neg, not_false_iff]
          exact ih out hnd.2 htail
        · simp only [eq_false_of_ne_true he, Bool.not_false, if_pos]
          rw [ih _ hnd.2 htail]
          rw [objGet_objSet_ne out s sect _ hks]

/-- The Metadata merge of the output assembler: when the visited document
contributes no `iidy` entry, the accumulator's entry survives the final
merge untouched. -/
theorem merge_into_stamped (mv : Val) (gm : Entries) (x : Val)
    (hmv : valGet mv "iidy" = none) (hgm : objGet gm "iidy" = some x)
    (hnd : (objKeys gm).Nodup) :
    valGet (lodashMerge (.map []) [mv, .map gm]) "iidy" = some x := by
  have hfold : lodashMerge (.map []) [mv, .map gm]
      = lodashMerge2 (lodashMerge2 (.map []) mv) (.map gm) := by
    simp [lodashMerge, List.foldl]
  rw [hfold]
  cases mv with
  | map m =>
      simp only [valGet] at hmv
      have hmk : ∀ e ∈ m, e.1 ≠ "iidy" := by
        intro e he hek
        rw [objGet_eq_none_iff] at hmv
        exact hmv (hek ▸ List.mem_map.mpr ⟨e, he, rfl⟩)
      have hin : objGet (mergeEntriesGo [] m) "iidy" = none := by
        rw [mergeGo_get_not_in_src m [] "iidy" hmk]
        rfl
      show valGet (lodashMerge2 (mergeVal (.map []) (.map m)) (.map gm)) "iidy" = some x
      rw [show mergeVal (.map []) (.map m) = .map (mergeEntriesGo [] m) from rfl]
      show valGet (mergeVal (.map (mergeEntriesGo [] m)) (.map gm)) "iidy" = some x
      rw [show mergeVal (.map (mergeEntriesGo [] m)) (.map gm)
          = .map (mergeEntriesGo (mergeEntriesGo [] m) gm) from rfl]
      exact mergeGo_get_src_of_none gm _ "iidy" x hin hnd (objGet_some_mem gm _ x hgm)
  | arr xs =>
      show valGet (lodashMerge2 (mergeVal (.map []) (.arr xs)) (.map gm)) "iidy" = some x
      rw [show mergeVal (.map []) (.arr xs) = .arr xs from rfl]
      show valGet (mergeVal (.arr xs) (.map gm)) "iidy" = some x
      rw [show mergeVal (.arr xs) (.map gm) = .map gm from rfl]
      exact hgm
  | null => exact mergeGo_get_src_of_none gm [] "iidy" x rfl hnd (objGet_some_mem gm _ x hgm)
  | undefined => exact mergeGo_get_src_of_none gm [] "iidy" x rfl hnd (objGet_some_mem gm _ x hgm)
  | bool b => exact mergeGo_get_src_of_none gm [] "iidy" x rfl hnd (objGet_some_mem gm _ x hgm)
  | num n => exact mergeGo_get_src_of_none gm [] "iidy" x rfl hnd (objGet_some_mem gm _ x hgm)
  | str s => exact mergeGo_get_src_of_none gm [] "iidy" x rfl hnd (objGet_some_mem gm _ x hgm)
  | date d => exact mergeGo_get_src_of_none gm [] "iidy" x rfl hnd (objGet_some_mem gm _ x hgm)
  | tag t p => exact mergeGo_get_src_of_none gm [] "iidy" x rfl hnd (objGet_some_mem gm _ x hgm)

/-! ## Evaluator loop lemmas -/

theorem except_bind_ok {α β : Type} (x : α) (f : α → Except String β) :
    (Except.ok x >>= f) = f x := rfl

theorem except_bind_error {α β : Type} (e : String) (f : α → Except String β) :
    ((Except.error e : Except String α) >>= f) = Except.error e := rfl

theorem visitMapEntriesGo_preserve (visit : Visitor) (es : Entries) (res0 : Entries)
    (path : String) (env : Env) (g : GAcc) (res : Entries) (g' : GAcc) (k : String)
    (hok : visitMapEntriesGo visit es res0 path env g = .ok (res, g'))
    (hne : ∀ e ∈ es, e.1 ≠ k)
    (hnm : ∀ e ∈ es, ¬ jsStartsWith e.1 "$merge") :
    objGet res k = objGet res0 k := by
  induction es generalizing res0 g with
  | nil =>
      rw [visitMapEntriesGo] at hok
      simp only [Except.ok.injEq, Prod.mk.injEq] at hok
      rw [hok.1]
  | cons kv rest ih =>
      obtain ⟨k1, v1⟩ := kv
      have hk1 : k1 ≠ k := hne (k1, v1) (by simp)
      have hnm1 : ¬ jsStartsWith k1 "$merge" := hnm (k1, v1) (by simp)
      have hner : ∀ e ∈ rest, e.1 ≠ k := fun e he => hne e (List.mem_cons_of_mem _ he)
      have hnmr : ∀ e ∈ rest, ¬ jsStartsWith e.1 "$merge" :=
        fun e he => hnm e (List.mem_cons_of_mem _ he)
      rw [visitMapEntriesGo, if_neg hnm1] at hok
      by_cases hmeta : k1 = "$envValues" ∨ k1 = "$imports" ∨ k1 = "$params" ∨ k1 = "$location"
      · rw [if_pos hmeta] at hok
        exact ih res0 g hok hner hnmr
      · rw [if_neg hmeta] at hok
        cases hv : visit v1 (appendPath path k1) env g with
        | error e => rw [hv] at hok; simp [except_bind_error] at hok
        | ok p =>
            obtain ⟨v', g1⟩ := p
            rw [hv] at hok
            simp only [except_bind_ok] at hok
            rw [ih _ _ hok hner hnmr]
            exact objGet_objSet_ne res0 k1 k v' hk1

theorem visitMapEntriesGo_get (visit : Visitor) (es : Entries) (res0 : Entries)
    (path : String) (env : Env) (g : GAcc) (res : Entries) (g' : GAcc)
    (k : String) (v0 : Val)
    (hok : visitMapEntriesGo visit es res0 path env g = .ok (res, g'))
    (hmem : (k, v0) ∈ es)
    (hnd : (objKeys es).Nodup)
    (hnm : ∀ e ∈ es, ¬ jsStartsWith e.1 "$merge")
    (hk : ¬ (k = "$envValues" ∨ k = "$imports" ∨ k = "$params" ∨ k = "$location")) :
    ∃ w gin gout, visit v0 (appendPath path k) env gin = .ok (w, gout)
      ∧ objGet res k = some w := by
  induction es generalizing res0 g with
  | nil => simp at hmem
  | cons kv rest ih =>
      obtain ⟨k1, v1⟩ := kv
      simp only [objKeys, List.map] at hnd
      rw [List.nodup_cons] at hnd
      have hnm1 : ¬ jsStartsWith k1 "$merge" := hnm (k1, v1) (by simp)
      have hnmr : ∀ e ∈ rest, ¬ jsStartsWith e.1 "$merge" :=
        fun e he => hnm e (List.mem_cons_of_mem _ he)
      rw [visitMapEntriesGo, if_neg hnm1] at hok
      rcases List.mem_cons.mp hmem with heq | htail
      · have hkk : k = k1 := congrArg Prod.fst heq
        have hvv : v0 = v1 := congrArg Prod.snd heq
        subst hkk
        subst hvv
        rw [if_neg hk] at hok
        cases hv : visit v0 (appendPath path k) env g with
        | error e => rw [hv] at hok; simp [except_bind_error] at hok
        | ok p =>
            obtain ⟨w, g1⟩ := p
            rw [hv] at hok
            simp only [except_bind_ok] at hok
            refine ⟨w, g, g1, hv, ?_⟩
            rw [visitMapEntriesGo_preserve visit rest _ path env g1 res g' k hok
              (fun e he hek => hnd.1 (hek ▸ List.mem_map.mpr ⟨e, he, rfl⟩)) hnmr]
            exact objGet_objSet_self res0 k w
      · have hk1 : k1 ≠ k := by
          intro hcontra
          exact hnd.1 (hcontra ▸ List.mem_map.mpr ⟨(k, v0), htail, rfl⟩)
        by_cases hmeta : k1 = "$envValues" ∨ k1 = "$imports" ∨ k1 = "$params" ∨ k1 = "$location"
        · rw [if_pos hmeta] at hok
          exact ih res0 g hok htail hnd.2 hnmr
        · rw [if_neg hmeta] at hok
          cases hv : visit v1 (appendPath path k1) env g with
          | error e => rw [hv] at hok; simp [except_bind_error] at hok
          | ok p =>
              obtain ⟨v', g1⟩ := p
              rw [hv] at hok
              simp only [except_bind_ok] at hok
              exact ih _ _ hok htail hnd.2 hnmr

theorem visitMapEntriesGo_nodup (visit : Visitor) (es : Entries) (res0 : Entries)
    (path : String) (env : Env) (g : GAcc) (res : Entries) (g' : GAcc)
    (hok : visitMapEntriesGo visit es res0 path env g = .ok (res, g'))
    (hnm : ∀ e ∈ es, ¬ jsStartsWith e.1 "$merge")
    (hnd0 : (objKeys res0).Nodup) :
    (objKeys res).Nodup := by
  induction es generalizing res0 g with
  | nil =>
      rw [visitMapEntriesGo] at hok
      simp only [Except.ok.injEq, Prod.mk.injEq] at hok
      rw [← hok.1]
      exact hnd0
  | cons kv rest ih =>
      obtain ⟨k1, v1⟩ := kv
      have hnm1 : ¬ jsStartsWith k1 "$merge" := hnm (k1, v1) (by simp)
      have hnmr : ∀ e ∈ rest, ¬ jsStartsWith e.1 "$merge" :=
        fun e he => hnm e (List.mem_cons_of_mem _ he)
      rw [visitMapEntriesGo, if_neg hnm1] at hok
      by_cases hmeta : k1 = "$envValues" ∨ k1 = "$imports" ∨ k1 = "$params" ∨ k1 = "$location"
      · rw [if_pos hmeta] at hok
        exact ih res0 g hok hnmr hnd0
      · rw [if_neg hmeta] at hok
        cases hv : visit v1 (appendPath path k1) env g with
        | error e => rw [hv] at hok; simp [except_bind_error] at hok
        | ok p =>
            obtain ⟨v', g1⟩ := p
            rw [hv] at hok
            simp only [except_bind_ok] at hok
            exact ih _ _ hok hnmr (objKeys_objSet_nodup res0 k1 v' hnd0)

theorem visit_map_decomp (fuel : Nat) (es : Entries) (path : String) (env : Env) (g : GAcc)
    (out : Val) (g' : GAcc)
    (hok : visitNode fuel (.map es) path env g = .ok (out, g'))
    (hrc : isResourcesCtx path = false)
    (hcn : currNodeOf path ≠ "$envValues") :
    ∃ m env2 g2 res, fuel = m + 1 ∧
      visitMapEntriesGo (visitNode m) es [] path env2 g2 = .ok (res, g')
      ∧ out = .map res := by
  cases fuel with
  | zero => simp [visitNode] at hok
  | succ m =>
      rw [visitNode, visitNodeBody] at hok
      simp only [hrc, Bool.false_eq_true, if_false, if_neg hcn] at hok
      by_cases hp : valTruthy ((objGet es "$params").getD .undefined)
      · rw [if_pos hp] at hok
        simp at hok
      · rw [if_neg hp] at hok
        by_cases he : valTruthy ((objGet es "$envValues").getD .undefined)
        · rw [if_pos he] at hok
          rw [visitImportedDocF] at hok
          cases hv : visitNode m
              (.map ((valEntries (valGetD (.map es) "$envValues")).filter
                (fun kv => !(valHasKey kv.2 "$params")))) path
              (mkSubEnv env (valGetD (.map es) "$envValues") (valGetD (.map es) "$location") path)
              g with
          | error e => rw [hv] at hok; simp [except_bind_error] at hok
          | ok p =>
              obtain ⟨processed, g1⟩ := p
              rw [hv] at hok
              simp only [except_bind_ok] at hok
              rw [visitMapNodeF] at hok
              cases hl : visitMapEntriesGo (visitNode m) (valEntries (.map es)) [] path
                  (mkSubEnv env
                    (lodashMerge (.map []) [processed,
                      .map ((valEntries (valGetD (.map es) "$envValues")).filter
                        (fun kv => valHasKey kv.2 "$params"))])
                    (valGetD (.map es) "$location") path) g1 with
              | error e => rw [hl] at hok; simp [except_bind_error] at hok
              | ok q =>
                  obtain ⟨res, g2⟩ := q
                  rw [hl] at hok
                  simp only [except_bind_ok, Except.ok.injEq, Prod.mk.injEq] at hok
                  refine ⟨m, mkSubEnv env
                      (lodashMerge (.map []) [processed,
                        .map ((valEntries (valGetD (.map es) "$envValues")).filter
                          (fun kv => valHasKey kv.2 "$params"))])
                      (valGetD (.map es) "$location") path, g1, res, rfl, ?_, ?_⟩
                  · rw [← hok.2]
                    exact hl
                  · rw [← hok.1]
        · rw [if_neg he] at hok
          rw [visitMapNodeF] at hok
          cases hl : visitMapEntriesGo (visitNode m) (valEntries (.map es)) [] path env g with
          | error e => rw [hl] at hok; simp [except_bind_error] at hok
          | ok q =>
              obtain ⟨res, g2⟩ := q
              rw [hl] at hok
              simp only [except_bind_ok, Except.ok.injEq, Prod.mk.injEq] at hok
              refine ⟨m, env, g, res, rfl, ?_, ?_⟩
              · rw [← hok.2]
                exact hl
              · rw [← hok.1]

theorem visitNode_str_shape (m : Nat) (s : String) (p : String) (env : Env) (g : GAcc)
    (w : Val) (g2 : GAcc)
    (hok : visitNode m (.str s) p env g = .ok (w, g2))
    (hhb : hasHB s = false)
    (hrc : isResourcesCtx p = false)
    (hcn : currNodeOf p ≠ "$envValues") :
    w = .str s ∧ g2 = g := by
  cases m with
  | zero => simp [visitNode] at hok
  | succ m =>
      rw [visitNode, visitNodeBody] at hok
      simp only [hrc, Bool.false_eq_true, if_false, if_neg hcn] at hok
      rw [visitStringNode, if_neg (by simp [hhb])] at hok
      simp only [except_bind_ok, Except.ok.injEq, Prod.mk.injEq] at hok
      exact ⟨hok.1.symm, hok.2.symm⟩

theorem except_bind_eq_ok {α β : Type} {x : Except String α} {f : α → Except String β} {b : β}
    (h : (x >>= f) = .ok b) : ∃ a, x = .ok a ∧ f a = .ok b := by
  cases x with
  | error e => simp [except_bind_error] at h
  | ok a =>
      refine ⟨a, rfl, ?_⟩
      simpa [except_bind_ok] using h

theorem visitMapEntriesGo_filter_meta (visit : Visitor) (es : Entries) (res0 : Entries)
    (path : String) (env : Env) (g : GAcc) :
    visitMapEntriesGo visit es res0 path env g =
      visitMapEntriesGo visit (es.filter (fun kv => kv.1 ∉ mapNodeSkipKeys)) res0 path env g := by
  induction es generalizing res0 g with
  | nil => rfl
  | cons kv rest ih =>
      obtain ⟨k1, v1⟩ := kv
      by_cases hmeta : k1 ∈ mapNodeSkipKeys
      · have hnm1 : ¬ jsStartsWith k1 "$merge" := by
          simp only [mapNodeSkipKeys, List.mem_cons, List.not_mem_nil, or_false] at hmeta
          rcases hmeta with rfl | rfl | rfl | rfl <;> decide
        have hmeta' : k1 = "$envValues" ∨ k1 = "$imports" ∨ k1 = "$params" ∨ k1 = "$location" := by
          simpa [mapNodeSkipKeys] using hmeta
        rw [visitMapEntriesGo, if_neg hnm1, if_pos hmeta']
        rw [List.filter_cons_of_neg (by simpa using hmeta)]
        exact ih res0 g
      · rw [List.filter_cons_of_pos (by simpa using hmeta)]
        rw [visitMapEntriesGo]
        conv_rhs => rw [visitMapEntriesGo]
        by_cases hm : jsStartsWith k1 "$merge"
        · rw [if_pos hm, if_pos hm]
          cases hv : visit v1 (appendPath path k1) env g with
          | error e => simp [except_bind_error]
          | ok p =>
              obtain ⟨sub, g1⟩ := p
              simp only [except_bind_ok]
              cases hs : spliceMergeGo path res0 (valEntries sub) with
              | error e => simp [except_bind_error]
              | ok res' =>
                  simp only [except_bind_ok]
                  exact ih res' g1
        · have hmeta' : ¬(k1 = "$envValues" ∨ k1 = "$imports" ∨ k1 = "$params" ∨ k1 = "$location") := by
            simpa [mapNodeSkipKeys] using hmeta
          rw [if_neg hm, if_neg hm, if_neg hmeta', if_neg hmeta']
          cases hv : visit v1 (appendPath path k1) env g with
          | error e => simp [except_bind_error]
          | ok p =>
              obtain ⟨v', g1⟩ := p
              simp only [except_bind_ok]
              exact ih _ g1

/-! ## Claims -/

/-- Claim C1 (amended): plain-map evaluation drops exactly the four
meta-keys `$envValues`, `$imports`, `$params` and `$location` from each
mapping it visits (erasing them from the input changes nothing), and the
output assembler deletes `$imports`, `$defs` and `$envValues` at the ROOT
of the output.  The original claim is false: `$defs` is not in the drop
list of `visitMapNode`, so a `$defs` key inside a nested mapping survives
into the output (see the counterexample). -/
theorem c1_meta_keys_amended :
    (∀ (visit : Visitor) (node : Val) (path : String) (env : Env) (g : GAcc),
        visitMapNodeF visit node path env g =
          visitMapNodeF visit (eraseMapMetaKeys node) path env g)
    ∧ (∀ (fuel : Nat) (root : Val) (loc : String) (recs : List ImportRecord) (out : Val),
        transformPostImports fuel root loc recs = .ok out →
        valGet out "$imports" = none ∧ valGet out "$defs" = none
          ∧ valGet out "$envValues" = none) := by
  constructor
  · intro visit node path env g
    cases node with
    | map es =>
        rw [visitMapNodeF, visitMapNodeF]
        rw [show valEntries (eraseMapMetaKeys (.map es))
            = (valEntries (.map es)).filter (fun kv => kv.1 ∉ mapNodeSkipKeys) from rfl]
        rw [← visitMapEntriesGo_filter_meta]
    | null => rfl
    | undefined => rfl
    | bool b => rfl
    | num n => rfl
    | str s => rfl
    | date iso => rfl
    | arr xs => rfl
    | tag t p => rfl
  · intro fuel root loc recs out hok
    rw [transformPostImports] at hok
    obtain ⟨p1, hV, hok⟩ := except_bind_eq_ok hok
    obtain ⟨visited, gacc⟩ := p1
    simp only [Except.ok.injEq] at hok
    rw [← hok]
    refine ⟨?_, ?_, ?_⟩
    · show objGet (objDelete (objDelete (objDelete _ "$imports") "$defs") "$envValues") "$imports"
        = none
      rw [objGet_objDelete_ne _ "$envValues" "$imports" (by decide)]
      rw [objGet_objDelete_ne _ "$defs" "$imports" (by decide)]
      exact objGet_objDelete_self _ "$imports"
    · show objGet (objDelete (objDelete (objDelete _ "$imports") "$defs") "$envValues") "$defs"
        = none
      rw [objGet_objDelete_ne _ "$envValues" "$defs" (by decide)]
      exact objGet_objDelete_self _ "$defs"
    · exact objGet_objDelete_self _ "$envValues"

/-- Counterexample to C1 as stated: the transform of `c1CexDoc` succeeds
and its output still contains a `$defs` key at depth (inside the nested
mapping under `A`), because `visitMapNode` drops only
`$envValues`/`$imports`/`$params`/`$location` and the root-level delete of
`$defs` does not reach nested mappings. -/
theorem c1_nested_defs_counterexample :
    transform 10 noImportsLoader c1CexDoc "file:root.yaml" = .ok c1CexOut
    ∧ hasKeyDeep c1CexOut "$defs" = true :=
  ⟨rfl, rfl⟩

/-- Witness for C1 at a concrete input: the assembled output of a small
document carries none of the three root-deleted meta-keys. -/
theorem c1_witness :
    valGet (Val.map [("Message", Val.str "hi")]) "$imports" = none
    ∧ valGet (Val.map [("Message", Val.str "hi")]) "$defs" = none
    ∧ valGet (Val.map [("Message", Val.str "hi")]) "$envValues" = none :=
  c1_meta_keys_amended.2 10 (.map [("Message", .str "hi"), ("$envValues", .map [])])
    "file:root.yaml" [] (.map [("Message", .str "hi")]) rfl

/-- Claim C2 (code bug): the duplicate-import guard of `loadImports` uses
`_.includes(doc.$envValues, asKey)`, which is VALUE membership, not key
membership.  On `c2FailingDoc` the first import binds `A ↦ "name2"` and
the second import, named `name2`, then fails with a duplicate-import error
even though the name `name2` was never bound: at the moment of the check
the environment has no key `name2` (third conjunct) but does contain the
string `"name2"` among its values (second conjunct). -/
theorem c2_duplicate_check_value_membership :
    loadImports 5 literalMockLoader c2FailingDoc "file:root.yaml" []
      = .error "Duplicate import name name2 in file:root.yaml"
    ∧ includesValue [("A", .str "name2")] "name2" = true
    ∧ objHasKey [("A", .str "name2")] "name2" = false :=
  ⟨rfl, rfl, rfl⟩

/-- Claim C3 (amended): the output carries `Metadata.iidy` with `Host`,
`User` and `Imports` equal to the accumulated import log — PROVIDED the
root is a CloudFormation document (the accumulator sections are only
merged into the output under `isCFNDoc`; the original claim is false for
other documents, see the counterexample), the visited document body does
not itself produce a `Metadata.iidy` entry, and the run leaves the
accumulator's stamped `iidy` entry in place (no hoisted `Metadata` key
named `iidy` overwrote it).  The key-uniqueness hypotheses always hold of
JavaScript objects. -/
theorem c3_metadata_iidy_amended (fuel : Nat) (root : Val) (loc : String)
    (recs : List ImportRecord) (ves : Entries) (gacc : GAcc) (gm : Entries) (out : Val)
    (hcfn : isCFNDocVal root = true)
    (hrun : visitNode fuel root "Root" (rootVisitEnv root loc) (initialGlobalAccum root recs)
      = .ok (.map ves, gacc))
    (hvnd : (objKeys ves).Nodup)
    (hgm : objGet gacc "Metadata" = some (.map gm))
    (hgmiidy : objGet gm "iidy" = some (iidyEntry recs))
    (hgmnd : (objKeys gm).Nodup)
    (hvm : valGet ((objGet ves "Metadata").getD .undefined) "iidy" = none)
    (hok : transformPostImports fuel root loc recs = .ok out) :
    valGet (valGetD out "Metadata") "iidy" = some (iidyEntry recs) := by
  rw [transformPostImports] at hok
  obtain ⟨p1, hV, hok⟩ := except_bind_eq_ok hok
  rw [hrun] at hV
  have hp1 : p1 = (.map ves, gacc) := by
    injection hV with h
    exact h.symm
  subst hp1
  simp only [hcfn, if_true, Except.ok.injEq] at hok
  rw [← hok]
  have hmetaE : objGet (extendEntries (seedOutputOf root) (.map ves)) "Metadata"
      = objGet ves "Metadata" := by
    show objGet (objSetFold (seedOutputOf root) ves) "Metadata" = objGet ves "Metadata"
    cases hm : objGet ves "Metadata" with
    | some mv => exact objSetFold_get_src ves _ "Metadata" mv hvnd (objGet_some_mem _ _ _ hm)
    | none =>
        rw [objSetFold_get_not_in_src ves _ "Metadata"
          (fun e he hek => by
            rw [objGet_eq_none_iff] at hm
            exact hm (hek ▸ List.mem_map.mpr ⟨e, he, rfl⟩))]
        rw [seedOutputOf, if_pos hcfn]
        rfl
  have hgmne : isEmptyVal ((objGet gacc "Metadata").getD .undefined) = false := by
    rw [hgm]
    cases gm with
    | nil => simp [objGet] at hgmiidy
    | cons a l => rfl
  have hAG : objGet (applyGlobalSections gacc GlobalSectionsList
      (extendEntries (seedOutputOf root) (.map ves))) "Metadata"
      = some (lodashMerge (.map [])
          [((objGet (extendEntries (seedOutputOf root) (.map ves)) "Metadata").getD .undefined),
           ((objGet gacc "Metadata").getD .undefined)]) :=
    applyGS_get_mem GlobalSectionsList gacc _ "Metadata" (by decide) (by decide) hgmne
  rw [hmetaE, hgm] at hAG
  have hmerge : valGet (lodashMerge (.map [])
      [((objGet ves "Metadata").getD .undefined), (.map gm)]) "iidy" = some (iidyEntry recs) :=
    merge_into_stamped _ gm (iidyEntry recs) hvm hgmiidy hgmnd
  show valGet ((valGet (.map (objDelete (objDelete (objDelete _ "$imports") "$defs")
      "$envValues")) "Metadata").getD .undefined) "iidy" = some (iidyEntry recs)
  rw [show ∀ D : Entries, valGet (.map D) "Metadata" = objGet D "Metadata" from fun _ => rfl]
  rw [objGet_objDelete_ne _ "$envValues" "Metadata" (by decide)]
  rw [objGet_objDelete_ne _ "$defs" "Metadata" (by decide)]
  rw [objGet_objDelete_ne _ "$imports" "Metadata" (by decide)]
  rw [hAG]
  exact hmerge

/-- Counterexample to C3 as stated: a document that is not a
CloudFormation document (no truthy `AWSTemplateFormatVersion` or
`Resources`) transforms successfully to an output with NO `Metadata` key
at all — the accumulator carrying `Metadata.iidy` is merged into the
output only inside the `if (isCFNDoc)` branch of `transformPostImports`. -/
theorem c3_non_cfn_counterexample :
    transform 10 noImportsLoader c3CexDoc "file:root.yaml" = .ok (.map [("Message", .str "hi")])
    ∧ valGet (.map [("Message", Val.str "hi")]) "Metadata" = none :=
  ⟨rfl, rfl⟩

/-- Witness for C3 at a concrete input: the minimal CloudFormation
document `{Resources: {}}` transforms to an output whose `Metadata.iidy`
is the provenance stamp with the empty import log. -/
theorem c3_witness :
    valGet (valGetD (.map [("AWSTemplateFormatVersion", .str "2010-09-09"),
        ("Resources", .map []),
        ("Metadata", .map [("iidy", iidyEntry [])])]) "Metadata") "iidy"
      = some (iidyEntry []) :=
  c3_metadata_iidy_amended 10 c3WitDoc "file:root.yaml" []
    [("Resources", .map [])]
    (initialGlobalAccum c3WitDoc []) [("iidy", iidyEntry [])]
    (.map [("AWSTemplateFormatVersion", .str "2010-09-09"), ("Resources", .map []),
           ("Metadata", .map [("iidy", iidyEntry [])])])
    rfl rfl (by decide) rfl rfl (by decide) rfl rfl

/-- Claim C4 (amended): `transformPostImports` does seed
`AWSTemplateFormatVersion := '2010-09-09'` for CloudFormation documents,
but the seed is written with `_.extend(seedOutput, visited)` whose LATER
source wins — so when the input document itself carries
`AWSTemplateFormatVersion`, the output's value is the VISITED INPUT value,
not `'2010-09-09'` (first conjunct; it equals `'2010-09-09'` only when
the input's value is).  The empty `Parameters`/`Conditions`/`Mappings`/
`Outputs` sections are seeded in the ACCUMULATOR, and a section reaches
the output exactly when the accumulator's section is non-empty (second
conjunct).  The no-`$merge`-key and key-uniqueness hypotheses rule out
splice interference; uniqueness always holds of JavaScript objects. -/
theorem c4_version_seed_overridden_amended :
    (∀ (fuel : Nat) (loc : String) (recs : List ImportRecord) (rootEntries : Entries)
        (v : String) (out : Val),
        objGet rootEntries "AWSTemplateFormatVersion" = some (.str v) →
        hasHB v = false →
        (objKeys rootEntries).Nodup →
        (∀ e ∈ rootEntries, ¬ jsStartsWith e.1 "$merge") →
        transformPostImports fuel (.map rootEntries) loc recs = .ok out →
        valGet out "AWSTemplateFormatVersion" = some (.str v))
    ∧ (∀ (fuel : Nat) (root : Val) (loc : String) (recs : List ImportRecord)
        (visited : Val) (gacc : GAcc) (out : Val) (sect : String),
        isCFNDocVal root = true →
        visitNode fuel root "Root" (rootVisitEnv root loc) (initialGlobalAccum root recs)
          = .ok (visited, gacc) →
        transformPostImports fuel root loc recs = .ok out →
        sect ∈ ["Parameters", "Conditions", "Mappings", "Outputs"] →
        isEmptyVal ((objGet gacc sect).getD .undefined) = false →
        (valGet out sect).isSome = true) := by
  constructor
  · intro fuel loc recs rootEntries v out hver hhb hnd hnm hok
    rw [transformPostImports] at hok
    obtain ⟨p1, hV, hok⟩ := except_bind_eq_ok hok
    obtain ⟨visited, gacc⟩ := p1
    obtain ⟨m, env2, g2, res, hfuel, hloop, hvis⟩ := visit_map_decomp fuel rootEntries "Root"
      (rootVisitEnv (.map rootEntries) loc) (initialGlobalAccum (.map rootEntries) recs)
      visited gacc hV (by decide) (by decide)
    subst hvis
    obtain ⟨w, gin, gout, hwvisit, hres⟩ := visitMapEntriesGo_get (visitNode m) rootEntries []
      "Root" env2 g2 res gacc "AWSTemplateFormatVersion" (.str v) hloop
      (objGet_some_mem _ _ _ hver) hnd hnm (by decide)
    have hw : w = .str v :=
      (visitNode_str_shape m v _ env2 gin w gout hwvisit hhb (by decide) (by decide)).1
    subst hw
    have hresnd : (objKeys res).Nodup :=
      visitMapEntriesGo_nodup (visitNode m) rootEntries [] "Root" env2 g2 res gacc
        hloop hnm (by decide)
    have hE : objGet (extendEntries (seedOutputOf (.map rootEntries)) (.map res))
        "AWSTemplateFormatVersion" = some (.str v) := by
      show objGet (objSetFold _ res) _ = _
      exact objSetFold_get_src res _ _ _ hresnd (objGet_some_mem _ _ _ hres)
    have hfinal : ∀ (X : Entries), objGet X "AWSTemplateFormatVersion" = some (.str v) →
        valGet (.map (objDelete (objDelete (objDelete X "$imports") "$defs") "$envValues"))
          "AWSTemplateFormatVersion" = some (.str v) := by
      intro X hX
      show objGet (objDelete (objDelete (objDelete X "$imports") "$defs") "$envValues") _ = _
      rw [objGet_objDelete_ne _ "$envValues" _ (by decide)]
      rw [objGet_objDelete_ne _ "$defs" _ (by decide)]
      rw [objGet_objDelete_ne _ "$imports" _ (by decide)]
      exact hX
    simp only [Except.ok.injEq] at hok
    rw [← hok]
    by_cases hcfn : isCFNDocVal (.map rootEntries) = true
    · rw [if_pos hcfn]
      refine hfinal _ ?_
      rw [applyGS_get_not_mem GlobalSectionsList gacc _ _ (by decide)]
      exact hE
    · rw [if_neg hcfn]
      exact hfinal _ hE
  · intro fuel root loc recs visited gacc out sect hcfn hrun hok hs hne
    rw [transformPostImports] at hok
    obtain ⟨p1, hV, hok⟩ := except_bind_eq_ok hok
    rw [hrun] at hV
    have hp1 : p1 = (visited, gacc) := by
      injection hV with h
      exact h.symm
    subst hp1
    simp only [Except.ok.injEq] at hok
    rw [← hok, if_pos hcfn]
    simp only [List.mem_cons, List.not_mem_nil, or_false] at hs
    have hAG := applyGS_get_mem GlobalSectionsList gacc
      (extendEntries (seedOutputOf root) visited) sect (by decide)
      (by rcases hs with rfl | rfl | rfl | rfl <;> decide) hne
    have hshow : valGet (.map (objDelete (objDelete (objDelete
        (applyGlobalSections gacc GlobalSectionsList
          (extendEntries (seedOutputOf root) visited)) "$imports") "$defs") "$envValues")) sect
        = objGet (applyGlobalSections gacc GlobalSectionsList
          (extendEntries (seedOutputOf root) visited)) sect := by
      show objGet _ _ = _
      rw [objGet_objDelete_ne _ "$envValues" _ (by rcases hs with rfl | rfl | rfl | rfl <;> decide)]
      rw [objGet_objDelete_ne _ "$defs" _ (by rcases hs with rfl | rfl | rfl | rfl <;> decide)]
      rw [objGet_objDelete_ne _ "$imports" _ (by rcases hs with rfl | rfl | rfl | rfl <;> decide)]
    rw [hshow, hAG]
    rfl

/-- Counterexample to C4 as stated: a document containing
`AWSTemplateFormatVersion: "bogus"` transforms successfully to an output
whose `AWSTemplateFormatVersion` is `"bogus"`, not `'2010-09-09'` — the
visited document extends (and overwrites) the seeded value. -/
theorem c4_version_counterexample :
    transform 10 noImportsLoader c4CexDoc "file:root.yaml"
      = .ok (.map [("AWSTemplateFormatVersion", .str "bogus"),
                   ("Metadata", .map [("iidy", iidyEntry [])])])
    ∧ (Val.str "bogus" = Val.str "2010-09-09" → False) := by
  refine ⟨rfl, ?_⟩
  intro h
  injection h with h1
  exact absurd h1 (by decide)

/-- Witness for C4 at concrete inputs: the document's own version value
(`"bogus"`) survives into the output, and a run whose expansion hoists a
non-empty `Outputs` section yields an output owning that section. -/
theorem c4_witness :
    valGet (.map [("AWSTemplateFormatVersion", Val.str "bogus"),
        ("Metadata", .map [("iidy", iidyEntry [])])]) "AWSTemplateFormatVersion"
      = some (.str "bogus")
    ∧ (valGet c4SectionsOut "Outputs").isSome = true := by
  constructor
  · exact c4_version_seed_overridden_amended.1 10 "file:root.yaml" []
      [("AWSTemplateFormatVersion", .str "bogus")] "bogus"
      (.map [("AWSTemplateFormatVersion", .str "bogus"),
             ("Metadata", .map [("iidy", iidyEntry [])])])
      rfl rfl (by decide) (by decide) rfl
  · exact c4_version_seed_overridden_amended.2 12 c4SectionsDoc "file:root.yaml" []
      (.map [("Resources", .map [("fooR", .map [("Type", .str "AWS::X")])])])
      c4SectionsGacc c4SectionsOut "Outputs" rfl rfl rfl (by decide) rfl

/-- Claim C5: a `Ref` tagged node whose payload is a string beginning with
`AWS:` is returned unchanged by the tag evaluator; any other payload is
rewritten to `Ref(Prefix + payload)` where the prefix is the active
environment's `Prefix` binding coerced to a string, and the empty string
when no `Prefix` is bound. -/
theorem c5_ref_rewrite (visit : Visitor) (d : Val) (path : String) (env : Env) (g : GAcc) :
    (∀ s : String, d = .str s → jsStartsWith s "AWS:" = true →
        visitYamlTagNodeF visit .Ref d path env g = .ok (.tag .Ref d, g))
    ∧ ((∀ s : String, d = .str s → jsStartsWith s "AWS:" = false) →
        visitYamlTagNodeF visit .Ref d path env g =
          .ok (.tag .Ref (.str (activePrefixString env ++ jsToString d)), g))
    ∧ (valGet env.envValues "Prefix" = none → activePrefixString env = "") := by
  refine ⟨?_, ?_, ?_⟩
  · rintro s rfl hs
    simp [visitYamlTagNodeF, hs]
  · intro hns
    cases d with
    | str s =>
        have hs := hns s rfl
        simp [visitYamlTagNodeF, hs, jsToString]
    | null => simp [visitYamlTagNodeF]
    | undefined => simp [visitYamlTagNodeF]
    | bool b => simp [visitYamlTagNodeF]
    | num n => simp [visitYamlTagNodeF]
    | date iso => simp [visitYamlTagNodeF]
    | arr xs => simp [visitYamlTagNodeF]
    | map es => simp [visitYamlTagNodeF]
    | tag t p => simp [visitYamlTagNodeF]
  · intro hp
    simp [activePrefixString, valGetD, hp, valTruthy]

/-- Witness for C5 at concrete inputs: an `AWS:`-prefixed payload is
preserved, a plain payload is rewritten with the active `Prefix`, and the
empty environment yields the empty prefix. -/
theorem c5_witness :
    visitYamlTagNodeF (visitNode 3) .Ref (.str "AWS::Region") "Root.R"
      { envValues := .map [("Prefix", .str "Pre")], stack := [⟨.str "l", "Root"⟩] } []
      = .ok (.tag .Ref (.str "AWS::Region"), [])
    ∧ visitYamlTagNodeF (visitNode 3) .Ref (.str "myRes") "Root.R"
      { envValues := .map [("Prefix", .str "Pre")], stack := [⟨.str "l", "Root"⟩] } []
      = .ok (.tag .Ref (.str "PremyRes"), [])
    ∧ activePrefixString emptyRootEnv = "" := by
  refine ⟨?_, ?_, ?_⟩
  · exact (c5_ref_rewrite (visitNode 3) (.str "AWS::Region") "Root.R"
      { envValues := .map [("Prefix", .str "Pre")], stack := [⟨.str "l", "Root"⟩] } []).1
      "AWS::Region" rfl (by decide)
  · exact (c5_ref_rewrite (visitNode 3) (.str "myRes") "Root.R"
      { envValues := .map [("Prefix", .str "Pre")], stack := [⟨.str "l", "Root"⟩] } []).2.1
      (by
        intro s hs
        have hsm : s = "myRes" := by
          injection hs with h
          exact h.symm
        subst hsm
        decide)
  · exact (c5_ref_rewrite (visitNode 3) (.str "x") "Root.R" emptyRootEnv []).2.2 rfl

/-- Claim C6: when the base location's scheme is `s3` or `http`,
`parseImportType` returns the base's scheme for a location with no
explicit scheme, and fails for an explicit `file` or `env` scheme; when
the base is not remote, a scheme outside the supported set is an error. -/
theorem c6_scheme_inheritance (location baseLocation : String) :
    (locSchemeOf baseLocation ∈ ["s3", "http"] →
      (strContains location ":" = false →
        parseImportType location baseLocation = .ok (locSchemeOf baseLocation))
      ∧ (strContains location ":" = true → locSchemeOf location ∈ localOnlyImportTypes →
        parseImportType location baseLocation =
          .error s!"Import type {location} in {baseLocation} not allowed from remote template"))
    ∧ (locSchemeOf baseLocation ∉ ["s3", "http"] → locSchemeOf location ∉ importTypes →
      parseImportType location baseLocation =
        .error s!"Unknown import type {location} in {baseLocation}") := by
  constructor
  · intro hb
    constructor
    · intro hc
      simp [parseImportType, hb, hc]
    · intro hc hl
      simp [parseImportType, hb, hc, hl]
  · intro hb hu
    simp [parseImportType, hb, hu]

/-- Witness for C6 at concrete inputs: a bare path under an `s3` base
inherits `s3`; an `env:` child under an `s3` base fails; an unknown scheme
under a `file` base fails. -/
theorem c6_witness :
    parseImportType "shared.yaml" "s3://bucket/dir/base.yaml" = .ok "s3"
    ∧ parseImportType "env:SECRET" "s3://bucket/dir/base.yaml" =
        .error "Import type env:SECRET in s3://bucket/dir/base.yaml not allowed from remote template"
    ∧ parseImportType "bogus:thing" "file:base.yaml" =
        .error "Unknown import type bogus:thing in file:base.yaml" := by
  refine ⟨?_, ?_, ?_⟩
  · exact ((c6_scheme_inheritance "shared.yaml" "s3://bucket/dir/base.yaml").1
      (by decide)).1 (by decide)
  · exact ((c6_scheme_inheritance "env:SECRET" "s3://bucket/dir/base.yaml").1
      (by decide)).2 (by decide) (by decide)
  · exact (c6_scheme_inheritance "bogus:thing" "file:base.yaml").2 (by decide) (by decide)

/-- Claim C9: evaluating a `$concatMap` node is the flattening (one level)
of the evaluation of a `$map` node with the same payload — the handler
delegates to a freshly built `$map` node (one recursion step deeper, hence
the fuel offset) and applies `_flatten` to its value, leaving the
accumulator untouched by the flattening itself. -/
theorem c9_concatmap_flatten_map (n : Nat) (d : Val) (path : String) (env : Env) (g : GAcc)
    (hrc : isResourcesCtx path = false)
    (hcn : currNodeOf path ≠ "$envValues") :
    visitNode (n + 1) (.tag .dollarConcatMap d) path env g =
      Except.map (fun r => (flattenVal r.1, r.2)) (visitNode n (.tag .dollarMap d) path env g) := by
  rw [visitNode, visitNodeBody]
  simp only [hrc, Bool.false_eq_true, if_false, if_neg hcn]
  rw [visitYamlTagNodeF]
  cases hv : visitNode n (.tag .dollarMap d) path env g with
  | error e => simp [except_bind_error, Except.map]
  | ok p =>
      obtain ⟨v, g1⟩ := p
      simp [except_bind_ok, Except.map]

/-- Witness for C9 at a concrete input: both sides evaluate a
`$concatMap` over two literal sub-sequences to the concatenation. -/
theorem c9_witness :
    visitNode 9 (.tag .dollarConcatMap (.map [("items", .arr [.arr [.num 1, .num 2], .arr [.num 3]]),
        ("template", .tag .dollarInclude (.str "item"))])) "Root.Z" emptyRootEnv []
      = .ok (.arr [.num 1, .num 2, .num 3], [])
    ∧ visitNode 9 (.tag .dollarConcatMap (.map [("items", .arr [.arr [.num 1, .num 2], .arr [.num 3]]),
        ("template", .tag .dollarInclude (.str "item"))])) "Root.Z" emptyRootEnv []
      = Except.map (fun r => (flattenVal r.1, r.2))
          (visitNode 8 (.tag .dollarMap (.map [("items", .arr [.arr [.num 1, .num 2], .arr [.num 3]]),
            ("template", .tag .dollarInclude (.str "item"))])) "Root.Z" emptyRootEnv []) := by
  constructor
  · rfl
  · exact c9_concatmap_flatten_map 8
      (.map [("items", .arr [.arr [.num 1, .num 2], .arr [.num 3]]),
        ("template", .tag .dollarInclude (.str "item"))]) "Root.Z" emptyRootEnv []
      (by decide) (by decide)

/-- Claim C10: `loadImports` modifies only the `$envValues` key of the
document it is given — every other key of the returned document reads
exactly as in the input.  `transform` applies `loadImports` to
`_.clone(root0)` (a shallow copy, the identity on pure value trees), so
the caller's `root0` gains no `$envValues` or `$location` key and none of
its entries change. -/
theorem c10_transform_no_mutation (fuel : Nat) (loader : Loader) (doc : Val)
    (baseLocation : String) (accum : List ImportRecord) (doc' : Val)
    (recs : List ImportRecord)
    (hok : loadImports fuel loader doc baseLocation accum = .ok (doc', recs)) :
    (∀ k, k ≠ "$envValues" → valGet doc' k = valGet doc k)
    ∧ lodashClone doc = doc := by
  refine ⟨?_, rfl⟩
  intro k hk
  cases fuel with
  | zero => simp [loadImports] at hok
  | succ n =>
      cases doc with
      | map es =>
          rw [loadImports] at hok
          obtain ⟨p1, hA, hok⟩ := except_bind_eq_ok hok
          obtain ⟨env2, recs1⟩ := p1
          simp only [Except.ok.injEq, Prod.mk.injEq] at hok
          rw [← hok.1]
          show valGet (valSetKey (.map es) "$envValues" (.map env2)) k = valGet (.map es) k
          simp only [valSetKey, valGet]
          exact objGet_objSet_ne es "$envValues" k _ (Ne.symm hk)
      | null => simp [loadImports] at hok
      | undefined => simp [loadImports] at hok
      | bool b => simp [loadImports] at hok
      | num n' => simp [loadImports] at hok
      | str s => simp [loadImports] at hok
      | date iso => simp [loadImports] at hok
      | arr xs => simp [loadImports] at hok
      | tag t p => simp [loadImports] at hok

/-- Claim C7 (amended): `$expand` clones the named template, deletes
`$params` from the clone, and evaluates it in a sub-environment built as
`_.merge({}, params, env.$envValues)` — so the OUTER environment, being
the last merge source, overrides the supplied parameters on common names.
A name of `params` is bound to its supplied value only when the outer
environment does not bind it (first conjunct); on a collision with a
non-mergeable outer value the outer binding wins (second conjunct); the
third conjunct is the evaluation equation showing the clone minus
`$params` visited under the merged sub-environment. -/
theorem c7_expand_subenv_amended :
    (∀ (pes oes : Entries) (n : String) (pv : Val), (objKeys pes).Nodup →
        objGet pes n = some pv → objGet oes n = none →
        valGet (expandSubEnvValues (.map pes) (.map oes)) n = some pv)
    ∧ (∀ (pes oes : Entries) (n : String) (w : Val), objGet oes n = some w →
        isMapVal w = false → isArrVal w = false → isUndefinedVal w = false →
        (objKeys oes).Nodup →
        valGet (expandSubEnvValues (.map pes) (.map oes)) n = some w)
    ∧ (∀ (visit : Visitor) (tname : String) (p template : Val) (path : String)
        (env : Env) (g : GAcc),
        lookupInEnv (.str tname) path env = .ok template →
        visitDollarExpandF visit (.map [("template", .str tname), ("params", p)]) path env g =
          visit (valDeleteKey template "$params") path
            (mkSubEnv env (expandSubEnvValues p env.envValues) .undefined path) g) := by
  refine ⟨?_, ?_, ?_⟩
  · intro pes oes n pv hnd hp ho
    show objGet (mergeEntriesGo (mergeEntriesGo [] pes) oes) n = some pv
    rw [mergeGo_get_not_in_src oes _ n
      (fun e he hek => by
        rw [objGet_eq_none_iff] at ho
        exact ho (hek ▸ List.mem_map.mpr ⟨e, he, rfl⟩))]
    exact mergeGo_get_src_of_none pes [] n pv rfl hnd (objGet_some_mem pes n pv hp)
  · intro pes oes n w ho h1 h2 h3 hnd
    show objGet (mergeEntriesGo (mergeEntriesGo [] pes) oes) n = some w
    exact mergeGo_get_src_scalar oes _ n w hnd (objGet_some_mem oes n w ho) h1 h2 h3
  · intro visit tname p template path env g hlook
    rw [visitDollarExpandF]
    have hkeys : sortStrings (objKeys (valEntries
        (Val.map [("template", Val.str tname), ("params", p)]))) = ["params", "template"] := rfl
    rw [if_neg (by rw [hkeys]; exact fun h => h rfl)]
    show (do
      let template ← lookupInEnv (.str tname) path env
      let subEnv := mkSubEnv env (expandSubEnvValues p env.envValues) .undefined path
      visit (valDeleteKey template "$params") path subEnv g) = _
    rw [hlook]
    simp [except_bind_ok]

/-- Counterexample to C7 as stated: with `x ↦ 1` bound in the outer
environment and `$expand` supplying `x = 2`, the template body
`!$include x` evaluates to `1` — the supplied parameter is NOT visible to
the template body, contradicting the claim that each name bound in the
params is bound to the params' value in the sub-environment. -/
theorem c7_outer_wins_counterexample :
    visitNode 6 c7CexNode "Root.X" c7CexEnv [] = .ok (.map [("Body", .num 1)], [])
    ∧ (Val.num 1 = Val.num 2 → False) := by
  refine ⟨rfl, ?_⟩
  intro h
  injection h with h1
  cases h1

/-- Witness for C7 at concrete inputs: a fresh name supplied in the params
is visible; an outer scalar binding wins over the params; the evaluation
equation holds at a concrete expansion. -/
theorem c7_witness :
    valGet (expandSubEnvValues (.map [("y", .num 2)]) (.map [("x", .num 1)])) "y" = some (.num 2)
    ∧ valGet (expandSubEnvValues (.map [("x", .num 2)]) (.map [("x", .num 1)])) "x" = some (.num 1)
    ∧ visitDollarExpandF (visitNode 5)
        (.map [("template", .str "T"), ("params", .map [("x", .num 2)])]) "Root.X" c7CexEnv [] =
      visitNode 5 (valDeleteKey (.map [("Body", .tag .dollarInclude (.str "x"))]) "$params")
        "Root.X"
        (mkSubEnv c7CexEnv
          (expandSubEnvValues (.map [("x", .num 2)]) c7CexEnv.envValues) .undefined "Root.X") [] := by
  refine ⟨?_, ?_, ?_⟩
  · exact c7_expand_subenv_amended.1 [("y", .num 2)] [("x", .num 1)] "y" (.num 2)
      (by decide) rfl rfl
  · exact c7_expand_subenv_amended.2.1 [("x", .num 2)] [("x", .num 1)] "x" (.num 1)
      rfl rfl rfl rfl (by decide)
  · exact c7_expand_subenv_amended.2.2 (visitNode 5) "T" (.map [("x", .num 2)])
      (.map [("Body", .tag .dollarInclude (.str "x"))]) "Root.X" c7CexEnv [] rfl

/-- Claim C8 (amended): one `$map` iteration builds its sub-environment as
`_.merge({[var]: item, [var+'Idx']: idx}, env.$envValues)` — the OUTER
environment is the merge source and overrides the item binding on a
collision.  The variable (and its `Idx` companion) resolves to the current
item (and index) exactly when the outer environment does not bind those
names (first conjunct); a non-mergeable outer binding wins (second
conjunct); the third conjunct is the per-item evaluation equation (the
item is visited first, then the template under the sub-environment); the
fourth is a collision-free run where the variable resolves to each item. -/
theorem c8_map_binding_amended :
    (∀ (varName : String) (item idx : Val) (oes : Entries),
        varName ∉ objKeys oes → (varName ++ "Idx") ∉ objKeys oes →
        valGet (mapSubEnvValues varName item idx (.map oes)) varName = some item
        ∧ valGet (mapSubEnvValues varName item idx (.map oes)) (varName ++ "Idx") = some idx)
    ∧ (∀ (varName : String) (item idx w : Val) (oes : Entries),
        objGet oes varName = some w → isMapVal w = false → isArrVal w = false →
        isUndefinedVal w = false → (objKeys oes).Nodup →
        valGet (mapSubEnvValues varName item idx (.map oes)) varName = some w)
    ∧ (∀ (visit : Visitor) (template : Val) (varName : String) (idxv item0 : Val)
        (rest : List (Val × Val)) (path : String) (env : Env) (g : GAcc),
        visitMapItemsGo visit template varName ((idxv, item0) :: rest) path env g = do
          let subPath := appendPath path (jsToString idxv)
          let (item, g1) ← visit item0 subPath env g
          let subEnv := mkSubEnv env (mapSubEnvValues varName item idxv env.envValues)
            .undefined subPath
          let (r, g2) ← visit template subPath subEnv g1
          let (rs, g3) ← visitMapItemsGo visit template varName rest path env g2
          .ok (r :: rs, g3))
    ∧ visitNode 8 c8DemoNode "Root.Y" emptyRootEnv [] = .ok (.arr [.num 5, .num 7], []) := by
  refine ⟨?_, ?_, ?_, rfl⟩
  · intro varName item idx oes h1 h2
    have hvi : varName ≠ varName ++ "Idx" := by
      intro h
      have hlen := congrArg String.length h
      rw [String.length_append] at hlen
      have hIdx : ("Idx" : String).length = 3 := rfl
      omega
    constructor
    · show objGet (mergeEntriesGo [(varName, item), (varName ++ "Idx", idx)] oes) varName
        = some item
      rw [mergeGo_get_not_in_src oes _ varName
        (fun e he hek => h1 (hek ▸ List.mem_map.mpr ⟨e, he, rfl⟩))]
      simp [objGet]
    · show objGet (mergeEntriesGo [(varName, item), (varName ++ "Idx", idx)] oes)
        (varName ++ "Idx") = some idx
      rw [mergeGo_get_not_in_src oes _ (varName ++ "Idx")
        (fun e he hek => h2 (hek ▸ List.mem_map.mpr ⟨e, he, rfl⟩))]
      simp [objGet, hvi]
  · intro varName item idx w oes ho h1 h2 h3 hnd
    show objGet (mergeEntriesGo [(varName, item), (varName ++ "Idx", idx)] oes) varName
      = some w
    exact mergeGo_get_src_scalar oes _ varName w hnd (objGet_some_mem oes varName w ho) h1 h2 h3
  · intro visit template varName idxv item0 rest path env g
    rfl

/-- Counterexample to C8 as stated: with the default variable name `item`
already bound to `"X"` in the outer environment, mapping the template
`!$include item` over `[1]` yields `["X"]` — the variable resolves to the
OUTER value, not to the current item `1`. -/
theorem c8_outer_item_counterexample :
    visitNode 8 c8CexNode "Root.Y" c8CexEnv [] = .ok (.arr [.str "X"], [])
    ∧ (Val.str "X" = Val.num 1 → False) := by
  refine ⟨rfl, ?_⟩
  intro h
  cases h

/-- Witness for C8 at concrete inputs: without a collision the variable
and its index binding resolve to the current item and index; with an
outer scalar binding the outer value wins. -/
theorem c8_witness :
    valGet (mapSubEnvValues "item" (.num 5) (.num 0) (.map [("a", .num 9)])) "item"
      = some (.num 5)
    ∧ valGet (mapSubEnvValues "item" (.num 5) (.num 0) (.map [("a", .num 9)])) "itemIdx"
      = some (.num 0)
    ∧ valGet (mapSubEnvValues "item" (.num 5) (.num 0) (.map [("item", .str "X")])) "item"
      = some (.str "X") := by
  obtain ⟨h1, h2⟩ := c8_map_binding_amended.1 "item" (.num 5) (.num 0) [("a", .num 9)]
    (by decide) (by decide)
  refine ⟨h1, h2, ?_⟩
  exact c8_map_binding_amended.2.1 "item" (.num 5) (.num 0) (.str "X") [("item", .str "X")]
    rfl rfl rfl rfl (by decide)

/-- Witness for C10 at a concrete input: loading the imports of a document
binds `$envValues` and leaves its other keys untouched. -/
theorem c10_witness :
    valGet (.map [("$imports", .map [("A", .str "literal:aaa")]),
                  ("Body", .str "b"), ("$envValues", .map [("A", .str "aaa")])]) "Body"
      = valGet (.map [("$imports", .map [("A", .str "literal:aaa")]), ("Body", .str "b")]) "Body" := by
  exact (c10_transform_no_mutation 5 literalMockLoader
    (.map [("$imports", .map [("A", .str "literal:aaa")]), ("Body", .str "b")])
    "file:root.yaml" []
    (.map [("$imports", .map [("A", .str "literal:aaa")]),
           ("Body", .str "b"), ("$envValues", .map [("A", .str "aaa")])])
    [{ key := some "A", «from» := "file:root.yaml", imported := "aaa",
       sha256Digest := "sha256:aaa" }]
    rfl).1 "Body" (by decide)

end Iidy
